import Mathlib

/-!
Shallow embedding of `confusion_matrix.py` (class `CustomConfusionMatrix`)
from the `wd_camera_trapping` repository, together with proofs about it.

The Python class stores, per image, a confidence-independent match record
(ground-truth classes, detection classes, detection confidences, and the
greedy one-to-one IoU matching), and recomputes a confusion matrix at any
confidence threshold from those records.

Modelling conventions:
* tensor/array coordinates and confidences become `ℚ` (the float formulas
  are carried over literally, with the source's `eps = 1e-7`);
* class indices become `ℕ`;
* a numpy integer matrix of counters becomes the function
  `fun r c => (cells).count (r, c)` where `cells` lists one `(row, col)`
  pair per `matrix[row, col] += 1` executed by the source — identical
  contents, and reorderings of the increments are invisible in the counts;
* `used_det` (a boolean array indexed by detection index) becomes the list
  of detection indices that have been set to `True`;
* array indexing `a[i]` becomes `List.getD i default`; the source only
  indexes in bounds for records its own `accumulate_matches` produced.
-/

namespace WdCT

open scoped List

/-- Axis-aligned box `(x1, y1, x2, y2)` in `xyxy` format.  For oriented
boxes the source's `batch_probiou` falls back to `box_iou` on the first
four columns, so the angle column is never read and is not modelled. -/
structure Box where
  x1 : ℚ
  y1 : ℚ
  x2 : ℚ
  y2 : ℚ
deriving DecidableEq

/-- The `eps=1e-7` denominator guard of `box_iou`. -/
def eps : ℚ := 1 / 10000000

/-- `box_iou` from `confusion_matrix.py` lines 199-206 for one pair:
intersection with each side length clamped at 0, divided by
`area1 + area2 - inter + eps`. -/
def box_iou (b1 b2 : Box) : ℚ :=
  let interW := max 0 (min b1.x2 b2.x2 - max b1.x1 b2.x1)
  let interH := max 0 (min b1.y2 b2.y2 - max b1.y1 b2.y1)
  let inter := interW * interH
  let area1 := (b1.x2 - b1.x1) * (b1.y2 - b1.y1)
  let area2 := (b2.x2 - b2.x1) * (b2.y2 - b2.y1)
  inter / (area1 + area2 - inter + eps)

/-- `batch_probiou` (lines 208-216): the source's stand-in simply calls
`box_iou` on the first four columns, ignoring the angle column. -/
def batch_probiou (b1 b2 : Box) : ℚ :=
  box_iou b1 b2

/-- One detection row `(x1, y1, x2, y2, conf, class[, angle])`; the angle
value is never read (see `batch_probiou`), only the column count matters
and that is recorded at image level. -/
structure Det where
  box : Box
  conf : ℚ
  cls : ℕ
deriving DecidableEq

/-- One image's input to `accumulate_matches`.  `detObb` records whether
the detection tensor has 7 columns, `gtObb` whether the ground-truth
tensor has 5 columns — the two shape tests of source line 64. -/
structure Image where
  dets : List Det
  detObb : Bool
  gts : List Box
  gtObb : Bool
  gt_cls : List ℕ
deriving DecidableEq

/-- One row of the stored `matches` array: `(gt_index, det_index, iou)`. -/
structure MatchRow where
  gt_idx : ℕ
  det_idx : ℕ
  iou : ℚ
deriving DecidableEq

/-- One entry of `self.matches_per_image` (source lines 21-28).
`matchList` is the dict entry the source names "matches" (`matches` is a
reserved word in Lean). -/
structure MatchRecord where
  gt_classes : List ℕ
  det_classes : List ℕ
  det_confs : List ℚ
  matchList : List MatchRow
deriving DecidableEq

/-- The `task` constructor argument: `"detect"` or `"classify"`. -/
inductive Task where
  | detect
  | classify
deriving DecidableEq

/-- The state held by a `CustomConfusionMatrix` object. -/
structure CustomConfusionMatrix where
  task : Task
  nc : ℕ
  iou_thres : ℚ
  matches_per_image : List MatchRecord
deriving DecidableEq

/-- `CustomConfusionMatrix.__init__` (lines 10-28): stores the three
configuration values and starts with an empty record list.  The source
constructor performs no validation and has no failure path. -/
def CustomConfusionMatrix.init (nc : ℕ) (iou_thres : ℚ) (task : Task) :
    CustomConfusionMatrix :=
  ⟨task, nc, iou_thres, []⟩

/-! ### List helpers mirroring the numpy operations -/

/-- Stable insertion for `sortLe`. -/
def insertLe {α : Type} (le : α → α → Bool) (x : α) : List α → List α
  | [] => [x]
  | y :: ys => if le x y then x :: y :: ys else y :: insertLe le x ys

/-- Stable insertion sort: with `le` a total order's `≤`, this reproduces
numpy's stable ascending `argsort` order. -/
def sortLe {α : Type} (le : α → α → Bool) : List α → List α
  | [] => []
  | x :: xs => insertLe le x (sortLe le xs)

/-- Keep the first occurrence of each key, scanning left to right;
`seen` is the set of keys already kept. -/
def keepFirstByAux {α : Type} (k : α → ℕ) : List α → List ℕ → List α
  | [], _ => []
  | x :: xs, seen =>
    if seen.contains (k x) then keepFirstByAux k xs seen
    else x :: keepFirstByAux k xs (k x :: seen)

/-- Keep the first occurrence of each key. -/
def keepFirstBy {α : Type} (k : α → ℕ) (l : List α) : List α :=
  keepFirstByAux k l []

/-- `a[a[:,2].argsort()[::-1]]` (lines 81 and 86): numpy's `argsort` is
stable ascending and `[::-1]` reverses it, so this is the reverse of a
stable ascending sort by IoU. -/
def sortByIouDesc (l : List MatchRow) : List MatchRow :=
  (sortLe (fun a b => decide (a.iou ≤ b.iou)) l).reverse

/-- `a[np.unique(a[:,col], return_index=True)[1]]` (lines 83-84 and 87-88):
keep the row at the first occurrence of each key; `np.unique` returns the
keys sorted ascending, so the surviving rows come out ordered by key. -/
def npUniqueBy (k : MatchRow → ℕ) (l : List MatchRow) : List MatchRow :=
  sortLe (fun a b => decide (k a ≤ k b)) (keepFirstBy k l)

/-- `np.unique` on a flat index array (line 162): first occurrences,
returned sorted ascending. -/
def npUniqueNat (l : List ℕ) : List ℕ :=
  sortLe (fun a b => decide (a ≤ b)) (keepFirstBy id l)

/-! ### accumulate_matches -/

/-- Source line 64: `is_obb = (detections.shape[1] == 7 and
gt_bboxes.shape[1] == 5)` — the box kind is inferred structurally from
the column counts. -/
def is_obb (img : Image) : Bool :=
  img.detObb && img.gtObb

/-- The IoU used for one gt/detection pair of an image (lines 66-71):
`batch_probiou` when `is_obb`, else `box_iou`; both read only the four
`xyxy` coordinates. -/
def iouOf (img : Image) (gb : Box) (d : Det) : ℚ :=
  if is_obb img then batch_probiou gb d.box else box_iou gb d.box

/-- `torch.where(iou > self.iou_thres)` flattened row-major over the
`(n_gt, n_det)` IoU matrix (lines 73-78): the candidate rows
`(gt_idx, det_idx, iou)` with IoU strictly above the threshold, ordered
by gt index, then det index. -/
def candidateRows (iou_thres : ℚ) (img : Image) : List MatchRow :=
  img.gts.enum.flatMap (fun g =>
    img.dets.enum.filterMap (fun d =>
      if iou_thres < iouOf img g.2 d.2 then some ⟨g.1, d.1, iouOf img g.2 d.2⟩
      else none))

/-- The greedy one-to-one reduction (lines 80-88): sort by IoU
descending, keep the first occurrence of each detection index, re-sort by
IoU descending, keep the first occurrence of each gt index. -/
def greedyReduce (l : List MatchRow) : List MatchRow :=
  npUniqueBy MatchRow.gt_idx (sortByIouDesc (npUniqueBy MatchRow.det_idx (sortByIouDesc l)))

/-- The record `accumulate_matches` (lines 30-98) appends for one image:
`none` when no record is appended (no ground truths and no detections).
No branch of the source raises; mixed axis-aligned/oriented inputs just
make `is_obb` false. -/
def recordOf (iou_thres : ℚ) (img : Image) : Option MatchRecord :=
  if img.gt_cls.length = 0 then
    if img.dets.length > 0 then
      some ⟨[], img.dets.map Det.cls, img.dets.map Det.conf, []⟩
    else none
  else if img.dets.length = 0 then
    some ⟨img.gt_cls, [], [], []⟩
  else
    let cand := candidateRows iou_thres img
    let ms := if cand.length ≠ 0 then greedyReduce cand else []
    some ⟨img.gt_cls, img.dets.map Det.cls, img.dets.map Det.conf, ms⟩

/-- `accumulate_matches` as a state transformer: append the image's
record (if any) to `self.matches_per_image`. -/
def CustomConfusionMatrix.accumulate_matches (cm : CustomConfusionMatrix)
    (img : Image) : CustomConfusionMatrix :=
  ⟨cm.task, cm.nc, cm.iou_thres, cm.matches_per_image ++ (recordOf cm.iou_thres img).toList⟩

/-- Accumulate a sequence of images in order. -/
def CustomConfusionMatrix.accumulateAll (cm : CustomConfusionMatrix)
    (imgs : List Image) : CustomConfusionMatrix :=
  imgs.foldl CustomConfusionMatrix.accumulate_matches cm

/-! ### compute_matrix -/

/-- The TP loop of `compute_matrix` (lines 143-157): walk the `matches`
rows; a row whose detection has confidence `≥ conf_thres` and is not yet
used emits a `(pred_class, true_class)` increment (same cell in both
tasks, lines 152-155) and marks the detection used.  Returns the emitted
cells and the final used set. -/
def tpLoop (t : ℚ) (det_confs : List ℚ) (det_classes gt_classes : List ℕ) :
    List MatchRow → List ℕ → List (ℕ × ℕ) × List ℕ
  | [], used => ([], used)
  | m :: ms, used =>
    if t ≤ det_confs.getD m.det_idx 0 ∧ used.contains m.det_idx = false then
      let rest := tpLoop t det_confs det_classes gt_classes ms (m.det_idx :: used)
      ((det_classes.getD m.det_idx 0, gt_classes.getD m.gt_idx 0) :: rest.1, rest.2)
    else
      tpLoop t det_confs det_classes gt_classes ms used

/-- The `used` test of lines 170-173, literally: Python's
`not used_det[d_idx] == False` parses as `not (used_det[d_idx] == False)`,
i.e. `used_det[d_idx]`. -/
def fnUsedCheck (t : ℚ) (det_confs : List ℚ) (used : List ℕ)
    (sub : List MatchRow) : Bool :=
  sub.any (fun m =>
    decide (t ≤ det_confs.getD m.det_idx 0) && !(used.contains m.det_idx == false))

/-- The increments of the mixed branch (lines 141-193, both ground truths
and detections present): TP cells from the match loop, then FN cells for
`unmatched_gt` (the indices outside `np.unique(matches[:,0])`, in
ascending order like Python's small-int set iteration, followed by the
matched-but-unused ones appended by the loop of lines 166-175), then FP
cells for above-threshold unused detections.  In `classify` mode the FN
and FP branches are `pass` (lines 184 and 193). -/
def mixedCells (nc : ℕ) (task : Task) (t : ℚ) (rec : MatchRecord) :
    List (ℕ × ℕ) :=
  let res := tpLoop t rec.det_confs rec.det_classes rec.gt_classes rec.matchList []
  let used := res.2
  let mgu := npUniqueNat (rec.matchList.map MatchRow.gt_idx)
  let unmatched0 := (List.range rec.gt_classes.length).filter (fun g => !(mgu.contains g))
  let extraFN := mgu.filter (fun g =>
    !(fnUsedCheck t rec.det_confs used (rec.matchList.filter (fun m => m.gt_idx == g))))
  let fnCells :=
    if task = Task.detect then
      (unmatched0 ++ extraFN).map (fun g => (nc, rec.gt_classes.getD g 0))
    else []
  let fpCells :=
    if task = Task.detect then
      (rec.det_classes.enum.filter (fun p =>
        decide (t ≤ rec.det_confs.getD p.1 0) && !(used.contains p.1))).map
        (fun p => (p.2, nc))
    else []
  res.1 ++ fnCells ++ fpCells

/-- All increments `compute_matrix` performs for one stored record
(lines 114-193): the no-ground-truth branch (lines 120-130), the
no-detection branch (lines 132-139), or the mixed branch. -/
def recordCells (nc : ℕ) (task : Task) (t : ℚ) (rec : MatchRecord) :
    List (ℕ × ℕ) :=
  if rec.gt_classes.length = 0 then
    if rec.det_classes.length > 0 then
      ((rec.det_classes.zip rec.det_confs).filter (fun p => decide (t ≤ p.2))).map
        (fun p => if task = Task.detect then (p.1, nc) else (p.1, 0))
    else []
  else if rec.det_classes.length = 0 then
    rec.gt_classes.map (fun gc => if task = Task.detect then (nc, gc) else (gc, gc))
  else
    mixedCells nc task t rec

/-- All increments over the whole record collection. -/
def allCells (nc : ℕ) (task : Task) (t : ℚ) (records : List MatchRecord) :
    List (ℕ × ℕ) :=
  records.flatMap (recordCells nc task t)

/-- `compute_matrix` (lines 100-195): the returned matrix, as the counting
function `(r, c) ↦` number of `matrix[r, c] += 1` increments.  In
`detect` mode all increments land inside the `(nc+1) × (nc+1)` grid
(proved below); cells outside the allocated grid count 0. -/
def CustomConfusionMatrix.compute_matrix (cm : CustomConfusionMatrix) (t : ℚ) :
    ℕ → ℕ → ℕ :=
  fun r c => (allCells cm.nc cm.task t cm.matches_per_image).count (r, c)

/-! ### Small helper facts -/

lemma contains_eq_decide_mem (l : List ℕ) (a : ℕ) : l.contains a = decide (a ∈ l) := by
  simp

lemma not_beq_false (b : Bool) : (!(b == false)) = b := by
  cases b <;> rfl

lemma not_decide_le (t x : ℚ) : (!decide (t ≤ x)) = decide (x < t) := by
  by_cases h : t ≤ x
  · simp [h, not_lt.mpr h]
  · simp [h, not_le.mp h]

lemma length_filter_partition {α : Type} (l : List α) (p : α → Bool) :
    (l.filter p).length + (l.filter (fun a => !(p a))).length = l.length := by
  induction l with
  | nil => rfl
  | cons x xs ih =>
    by_cases h : p x = true <;> simp [List.filter_cons, h] <;> omega

/-- A `getD`-read from a list is an element or the default. -/
lemma getD_mem_or_default {α : Type} (l : List α) (i : ℕ) (d : α) :
    l.getD i d ∈ l ∨ l.getD i d = d := by
  by_cases h : i < l.length
  · left
    rw [List.getD_eq_getElem l d h]
    exact l.getElem_mem h
  · right
    exact List.getD_eq_default l d (le_of_not_lt h)

/-- A `getD`-read at an in-bounds index is an element. -/
lemma getD_mem_of_lt {α : Type} (l : List α) (i : ℕ) (d : α) (h : i < l.length) :
    l.getD i d ∈ l := by
  rw [List.getD_eq_getElem l d h]
  exact l.getElem_mem h

/-! ### Permutation and deduplication lemmas for the sort pipeline -/

lemma insertLe_perm {α : Type} (le : α → α → Bool) (x : α) (l : List α) :
    insertLe le x l ~ x :: l := by
  induction l with
  | nil => exact List.Perm.refl _
  | cons y ys ih =>
    by_cases h : le x y = true
    · simp [insertLe, h]
    · simp only [insertLe, h]
      exact ((ih.cons y).trans (List.Perm.swap x y ys)).symm.symm

lemma sortLe_perm {α : Type} (le : α → α → Bool) (l : List α) :
    sortLe le l ~ l := by
  induction l with
  | nil => exact List.Perm.refl _
  | cons x xs ih =>
    exact (insertLe_perm le x (sortLe le xs)).trans (ih.cons x)

lemma sortByIouDesc_perm (l : List MatchRow) : sortByIouDesc l ~ l :=
  (List.reverse_perm _).trans (sortLe_perm _ l)

lemma keepFirstByAux_sublist {α : Type} (k : α → ℕ) (l : List α) (seen : List ℕ) :
    keepFirstByAux k l seen <+ l := by
  induction l generalizing seen with
  | nil => exact List.Sublist.refl _
  | cons x xs ih =>
    by_cases h : seen.contains (k x) = true
    · simp only [keepFirstByAux, h, if_true]
      exact (ih seen).cons x
    · simp only [keepFirstByAux, h, if_false]
      exact (ih (k x :: seen)).cons₂ x

/-- The keys surviving `keepFirstByAux` are distinct and avoid `seen`. -/
lemma keepFirstByAux_keys {α : Type} (k : α → ℕ) (l : List α) (seen : List ℕ) :
    ((keepFirstByAux k l seen).map k).Nodup ∧
      ∀ a ∈ (keepFirstByAux k l seen).map k, a ∉ seen := by
  induction l generalizing seen with
  | nil => simp [keepFirstByAux]
  | cons x xs ih =>
    by_cases h : k x ∈ seen
    · simpa [keepFirstByAux, h] using ih seen
    · obtain ⟨hnd, havoid⟩ := ih (k x :: seen)
      have hrw : keepFirstByAux k (x :: xs) seen = x :: keepFirstByAux k xs (k x :: seen) := by
        simp [keepFirstByAux, h]
      rw [hrw]
      refine ⟨?_, ?_⟩
      · simp only [List.map_cons, List.nodup_cons]
        refine ⟨fun hmem => ?_, hnd⟩
        exact (havoid _ hmem) (List.mem_cons_self _ _)
      · intro a ha
        simp only [List.map_cons, List.mem_cons] at ha
        rcases ha with rfl | ha
        · exact h
        · intro hseen
          exact (havoid a ha) (List.mem_cons_of_mem _ hseen)

lemma keepFirstBy_keys_nodup {α : Type} (k : α → ℕ) (l : List α) :
    ((keepFirstBy k l).map k).Nodup :=
  (keepFirstByAux_keys k l []).1

lemma npUniqueBy_keys_nodup (k : MatchRow → ℕ) (l : List MatchRow) :
    ((npUniqueBy k l).map k).Nodup := by
  have hperm : (npUniqueBy k l).map k ~ (keepFirstBy k l).map k :=
    (sortLe_perm _ (keepFirstBy k l)).map k
  exact hperm.symm.nodup (keepFirstBy_keys_nodup k l)

lemma npUniqueBy_subset (k : MatchRow → ℕ) (l : List MatchRow) :
    ∀ x ∈ npUniqueBy k l, x ∈ l := by
  intro x hx
  have hx' := (sortLe_perm (fun a b => decide (k a ≤ k b)) (keepFirstBy k l)).mem_iff.mp hx
  exact (keepFirstByAux_sublist k l []).subset hx'

/-- With the identity key, `keepFirstByAux` keeps exactly the elements not
yet seen. -/
lemma keepFirstByAux_id_mem (l : List ℕ) (seen : List ℕ) (a : ℕ) :
    a ∈ keepFirstByAux id l seen ↔ a ∈ l ∧ a ∉ seen := by
  induction l generalizing seen with
  | nil => simp [keepFirstByAux]
  | cons x xs ih =>
    by_cases h : x ∈ seen
    · by_cases hax : a = x
      · subst hax
        rw [show keepFirstByAux id (a :: xs) seen = keepFirstByAux id xs seen by
          simp [keepFirstByAux, h]]
        rw [ih]
        simp only [List.mem_cons]
        constructor
        · rintro ⟨h1, h2⟩
          exact ⟨Or.inr h1, h2⟩
        · rintro ⟨h1, h2⟩
          exact absurd h h2
      · simp [keepFirstByAux, h, ih, hax]
    · by_cases hax : a = x
      · subst hax
        simp [keepFirstByAux, h, ih]
      · simp [keepFirstByAux, h, ih, hax]

lemma npUniqueNat_mem (l : List ℕ) (a : ℕ) : a ∈ npUniqueNat l ↔ a ∈ l := by
  unfold npUniqueNat keepFirstBy
  rw [(sortLe_perm _ _).mem_iff, keepFirstByAux_id_mem]
  simp

lemma npUniqueNat_nodup (l : List ℕ) : (npUniqueNat l).Nodup := by
  have h := (keepFirstByAux_keys id l []).1
  rw [List.map_id] at h
  exact ((sortLe_perm (fun a b => decide (a ≤ b)) (keepFirstBy id l)).symm.nodup) h

/-- On a duplicate-free list, `keepFirstByAux id` removes nothing. -/
lemma keepFirstByAux_id_of_nodup (l : List ℕ) (seen : List ℕ)
    (hnd : l.Nodup) (hdisj : ∀ a ∈ l, a ∉ seen) :
    keepFirstByAux id l seen = l := by
  induction l generalizing seen with
  | nil => rfl
  | cons x xs ih =>
    have hx : x ∉ seen := hdisj x (List.mem_cons_self _ _)
    have hxs : xs.Nodup := (List.nodup_cons.mp hnd).2
    have hx_not : x ∉ xs := (List.nodup_cons.mp hnd).1
    have hrw : keepFirstByAux id (x :: xs) seen = x :: keepFirstByAux id xs (x :: seen) := by
      simp [keepFirstByAux, hx]
    rw [hrw, ih (x :: seen) hxs]
    intro a ha
    simp only [List.mem_cons]
    rintro (rfl | hmem)
    · exact hx_not ha
    · exact hdisj a (List.mem_cons_of_mem _ ha) hmem

lemma npUniqueNat_perm_of_nodup (l : List ℕ) (hnd : l.Nodup) : npUniqueNat l ~ l := by
  unfold npUniqueNat keepFirstBy
  rw [keepFirstByAux_id_of_nodup l [] hnd (by simp)]
  exact sortLe_perm _ l

/-! ### The greedy reduction is a partial one-to-one matching -/

lemma greedyReduce_subset (l : List MatchRow) : ∀ m ∈ greedyReduce l, m ∈ l := by
  intro m hm
  have h1 := npUniqueBy_subset _ _ m hm
  have h2 := (sortByIouDesc_perm _).mem_iff.mp h1
  have h3 := npUniqueBy_subset _ _ m h2
  exact (sortByIouDesc_perm _).mem_iff.mp h3

lemma greedyReduce_gt_nodup (l : List MatchRow) :
    ((greedyReduce l).map MatchRow.gt_idx).Nodup :=
  npUniqueBy_keys_nodup _ _

lemma greedyReduce_det_nodup (l : List MatchRow) :
    ((greedyReduce l).map MatchRow.det_idx).Nodup := by
  have h1 : ((npUniqueBy MatchRow.det_idx (sortByIouDesc l)).map MatchRow.det_idx).Nodup :=
    npUniqueBy_keys_nodup _ _
  have h2 : ((sortByIouDesc (npUniqueBy MatchRow.det_idx (sortByIouDesc l))).map
      MatchRow.det_idx).Nodup :=
    ((sortByIouDesc_perm _).map MatchRow.det_idx).symm.nodup h1
  have h3 : keepFirstBy MatchRow.gt_idx
        (sortByIouDesc (npUniqueBy MatchRow.det_idx (sortByIouDesc l))) <+
      sortByIouDesc (npUniqueBy MatchRow.det_idx (sortByIouDesc l)) :=
    keepFirstByAux_sublist _ _ _
  have h4 := (h3.map MatchRow.det_idx).nodup h2
  exact ((sortLe_perm _ _).map MatchRow.det_idx).symm.nodup h4

/-! ### Candidate rows: membership and bounds -/

lemma candidateRows_mem {iou_thres : ℚ} {img : Image} {m : MatchRow}
    (hm : m ∈ candidateRows iou_thres img) :
    m.gt_idx < img.gts.length ∧ m.det_idx < img.dets.length ∧ iou_thres < m.iou := by
  simp only [candidateRows, List.mem_flatMap, List.mem_filterMap] at hm
  obtain ⟨g, hg, d, hd, hif⟩ := hm
  by_cases hc : iou_thres < iouOf img g.2 d.2
  · rw [if_pos hc] at hif
    obtain rfl := Option.some_injective _ hif
    have hg' : g.1 < img.gts.length := by
      have := List.mem_enum_iff_getElem?.mp hg
      obtain ⟨h, _⟩ := List.getElem?_eq_some.mp this
      exact h
    have hd' : d.1 < img.dets.length := by
      have := List.mem_enum_iff_getElem?.mp hd
      obtain ⟨h, _⟩ := List.getElem?_eq_some.mp this
      exact h
    exact ⟨hg', hd', hc⟩
  · rw [if_neg hc] at hif
    exact absurd hif (by simp)

/-! ### The TP loop: emitted cells and the final used set -/

/-- A detection index ends up `used` exactly when some match row names it
and its confidence clears the threshold. -/
lemma tpLoop_used_mem (t : ℚ) (confs : List ℚ) (dcls gcls : List ℕ)
    (ms : List MatchRow) (used : List ℕ) (d : ℕ) :
    d ∈ (tpLoop t confs dcls gcls ms used).2 ↔
      d ∈ used ∨ ∃ m ∈ ms, m.det_idx = d ∧ t ≤ confs.getD d 0 := by
  induction ms generalizing used with
  | nil => simp [tpLoop]
  | cons m ms ih =>
    by_cases hcond : t ≤ confs.getD m.det_idx 0 ∧ used.contains m.det_idx = false
    · rw [show (tpLoop t confs dcls gcls (m :: ms) used).2 =
          (tpLoop t confs dcls gcls ms (m.det_idx :: used)).2 by
        simp only [tpLoop, if_pos hcond]]
      rw [ih]
      constructor
      · rintro (hmem | hE)
        · rcases List.mem_cons.mp hmem with rfl | hmem
          · exact Or.inr ⟨m, List.mem_cons_self _ _, rfl, hcond.1⟩
          · exact Or.inl hmem
        · obtain ⟨m', hm', hd', hc'⟩ := hE
          exact Or.inr ⟨m', List.mem_cons_of_mem _ hm', hd', hc'⟩
      · rintro (hmem | hE)
        · exact Or.inl (List.mem_cons_of_mem _ hmem)
        · obtain ⟨m', hm', hd', hc'⟩ := hE
          rcases List.mem_cons.mp hm' with rfl | hm'
          · exact Or.inl (by rw [← hd']; exact List.mem_cons_self _ _)
          · exact Or.inr ⟨m', hm', hd', hc'⟩
    · rw [show (tpLoop t confs dcls gcls (m :: ms) used).2 =
          (tpLoop t confs dcls gcls ms used).2 by
        simp only [tpLoop, if_neg hcond]]
      rw [ih]
      constructor
      · rintro (hmem | hE)
        · exact Or.inl hmem
        · obtain ⟨m', hm', hd', hc'⟩ := hE
          exact Or.inr ⟨m', List.mem_cons_of_mem _ hm', hd', hc'⟩
      · rintro (hmem | hE)
        · exact Or.inl hmem
        · obtain ⟨m', hm', hd', hc'⟩ := hE
          rcases List.mem_cons.mp hm' with rfl | hm'
          · rw [hd'] at hcond
            rcases not_and_or.mp hcond with hc | hc
            · exact absurd hc' hc
            · have hctrue : used.contains d = true := by
                revert hc
                cases used.contains d <;> simp
              have hdmem : d ∈ used := by
                simpa [contains_eq_decide_mem] using hctrue
              exact Or.inl hdmem
          · exact Or.inr ⟨m', hm', hd', hc'⟩

/-- Under a duplicate-free detection column (what the greedy reduction
guarantees), the TP loop emits one cell per above-threshold match row. -/
lemma tpLoop_cells (t : ℚ) (confs : List ℚ) (dcls gcls : List ℕ)
    (ms : List MatchRow) (used : List ℕ)
    (hnd : (ms.map MatchRow.det_idx).Nodup)
    (hused : ∀ m ∈ ms, m.det_idx ∉ used) :
    (tpLoop t confs dcls gcls ms used).1 =
      (ms.filter (fun m => decide (t ≤ confs.getD m.det_idx 0))).map
        (fun m => (dcls.getD m.det_idx 0, gcls.getD m.gt_idx 0)) := by
  induction ms generalizing used with
  | nil => simp [tpLoop]
  | cons m ms ih =>
    have hmnotin : m.det_idx ∉ used := hused m (List.mem_cons_self _ _)
    have hcontains : used.contains m.det_idx = false := by
      simpa [contains_eq_decide_mem] using hmnotin
    have hnd' : (ms.map MatchRow.det_idx).Nodup := (List.nodup_cons.mp (by simpa using hnd)).2
    have hhead : m.det_idx ∉ ms.map MatchRow.det_idx :=
      (List.nodup_cons.mp (by simpa using hnd)).1
    by_cases hle : t ≤ confs.getD m.det_idx 0
    · have hcond : t ≤ confs.getD m.det_idx 0 ∧ used.contains m.det_idx = false :=
        ⟨hle, hcontains⟩
      rw [show tpLoop t confs dcls gcls (m :: ms) used =
          ((dcls.getD m.det_idx 0, gcls.getD m.gt_idx 0) ::
            (tpLoop t confs dcls gcls ms (m.det_idx :: used)).1,
            (tpLoop t confs dcls gcls ms (m.det_idx :: used)).2) by
        simp only [tpLoop, if_pos hcond]]
      have hused' : ∀ m' ∈ ms, m'.det_idx ∉ (m.det_idx :: used) := by
        intro m' hm'
        simp only [List.mem_cons]
        rintro (heq | hmem)
        · exact hhead (heq ▸ List.mem_map_of_mem MatchRow.det_idx hm')
        · exact hused m' (List.mem_cons_of_mem _ hm') hmem
      rw [List.filter_cons, if_pos (by simpa using hle), List.map_cons]
      exact congrArg _ (ih (m.det_idx :: used) hnd' hused')
    · have hcond : ¬(t ≤ confs.getD m.det_idx 0 ∧ used.contains m.det_idx = false) := by
        intro h
        exact hle h.1
      rw [show tpLoop t confs dcls gcls (m :: ms) used =
          tpLoop t confs dcls gcls ms used by
        simp only [tpLoop, if_neg hcond]]
      rw [List.filter_cons, if_neg (by simpa using hle)]
      exact ih used hnd' (fun m' hm' => hused m' (List.mem_cons_of_mem _ hm'))

/-- With a duplicate-free gt column, filtering the match rows on one gt
index returns exactly the unique row with that index. -/
lemma filter_gt_eq_singleton {l : List MatchRow}
    (hnd : (l.map MatchRow.gt_idx).Nodup) {m : MatchRow} (hm : m ∈ l) :
    l.filter (fun x => x.gt_idx == m.gt_idx) = [m] := by
  induction l with
  | nil => cases hm
  | cons x xs ih =>
    have hxnot : x.gt_idx ∉ xs.map MatchRow.gt_idx := (List.nodup_cons.mp hnd).1
    have hnd' : (xs.map MatchRow.gt_idx).Nodup := (List.nodup_cons.mp hnd).2
    rcases List.mem_cons.mp hm with rfl | hm'
    · rw [List.filter_cons, if_pos (by simp)]
      have : xs.filter (fun x2 => x2.gt_idx == m.gt_idx) = [] := by
        rw [List.filter_eq_nil_iff]
        intro y hy hbeq
        apply hxnot
        have : y.gt_idx = m.gt_idx := by simpa using hbeq
        exact this ▸ List.mem_map_of_mem MatchRow.gt_idx hy
      rw [this]
    · have hne : ¬(x.gt_idx == m.gt_idx) = true := by
        simp only [beq_iff_eq]
        intro heq
        exact hxnot (heq ▸ List.mem_map_of_mem MatchRow.gt_idx hm')
      rw [List.filter_cons, if_neg hne]
      exact ih hnd' hm'

/-! ### Counting infrastructure: matrix sums as filtered lengths -/

/-- Summing the counter over a finite set of cells counts the increments
that land in that set. -/
lemma sum_count_eq_length_filter (l : List (ℕ × ℕ)) (S : Finset (ℕ × ℕ)) :
    ∑ a ∈ S, l.count a = (l.filter (fun p => decide (p ∈ S))).length := by
  induction l with
  | nil => simp
  | cons x xs ih =>
    rw [List.filter_cons]
    simp only [List.count_cons, beq_iff_eq]
    rw [Finset.sum_add_distrib, Finset.sum_ite_eq S x (fun _ => 1), ih]
    by_cases hx : x ∈ S
    · rw [if_pos hx, if_pos (by simpa using hx), List.length_cons]
    · rw [if_neg hx, if_neg (by simpa using hx)]
      omega

/-- Reading every index of a list with `getD` reproduces the list. -/
lemma range_map_getD {α : Type} (l : List α) (d : α) :
    (List.range l.length).map (fun i => l.getD i d) = l := by
  induction l with
  | nil => simp
  | cons x xs ih =>
    rw [List.length_cons, List.range_succ_eq_map, List.map_cons, List.map_map]
    have h1 : ((x :: xs).getD 0 d) = x := rfl
    have h2 : ((fun i => (x :: xs).getD i d) ∘ Nat.succ) = fun i => xs.getD i d := by
      funext i
      rfl
    rw [h1, h2, ih]

/-- Filtering `range n` on membership in a duplicate-free list of indices
below `n` counts that list. -/
lemma length_filter_range_contains (n : ℕ) (S : List ℕ) (hnd : S.Nodup)
    (hlt : ∀ a ∈ S, a < n) :
    ((List.range n).filter (fun a => S.contains a)).length = S.length := by
  have hfil_nd : ((List.range n).filter (fun a => S.contains a)).Nodup :=
    (List.nodup_range n).filter _
  have hset : ((List.range n).filter (fun a => S.contains a)).toFinset = S.toFinset := by
    apply Finset.ext
    intro a
    simp only [List.mem_toFinset, List.mem_filter, List.mem_range]
    constructor
    · rintro ⟨_, hc⟩
      simpa [contains_eq_decide_mem] using hc
    · intro ha
      exact ⟨hlt a ha, by simpa [contains_eq_decide_mem] using ha⟩
  have := congrArg Finset.card hset
  rwa [List.toFinset_card_of_nodup hfil_nd, List.toFinset_card_of_nodup hnd] at this

/-- Filtering an `enum` on a predicate of the index only is filtering
`range` on that predicate. -/
lemma length_filter_enum_fst {α : Type} (l : List α) (q : ℕ → Bool) :
    (l.enum.filter (fun p => q p.1)).length = ((List.range l.length).filter q).length := by
  have h := List.filter_map (Prod.fst (α := ℕ) (β := α)) (p := q) l.enum
  rw [List.enum_map_fst] at h
  have hl := congrArg List.length h
  rw [List.length_map] at hl
  rw [hl]
  congr 1

/-- The second components of `enum` members are list members. -/
lemma snd_mem_of_mem_enum {α : Type} {l : List α} {p : ℕ × α} (hp : p ∈ l.enum) :
    p.2 ∈ l :=
  List.getElem?_mem (List.mem_enum_iff_getElem?.mp hp)

/-- The first components of `enum` members are in-bounds indices. -/
lemma fst_lt_of_mem_enum {α : Type} {l : List α} {p : ℕ × α} (hp : p ∈ l.enum) :
    p.1 < l.length := by
  obtain ⟨h, _⟩ := List.getElem?_eq_some.mp (List.mem_enum_iff_getElem?.mp hp)
  exact h

/-- Filtering a `zip` on a predicate of the second component, for lists of
equal length, counts like filtering the second list. -/
lemma length_filter_zip_snd {α β : Type} (l1 : List α) (l2 : List β) (q : β → Bool)
    (hlen : l1.length = l2.length) :
    ((l1.zip l2).filter (fun p => q p.2)).length = (l2.filter q).length := by
  induction l1 generalizing l2 with
  | nil =>
    cases l2 with
    | nil => simp
    | cons y ys => cases hlen
  | cons x xs ih =>
    cases l2 with
    | nil => cases hlen
    | cons y ys =>
      have hlen' : xs.length = ys.length := by
        simpa using hlen
      rw [List.zip_cons_cons, List.filter_cons, List.filter_cons]
      by_cases hq : q y = true
      · rw [if_pos (by simpa using hq), if_pos hq]
        simp [ih ys hlen']
      · rw [if_neg (by simpa using hq), if_neg hq]
        exact ih ys hlen'

/-! ### Well-formedness of stored records -/

/-- Structural invariants `accumulate_matches` guarantees for a stored
record: the detection columns are index-aligned, the match rows form a
partial one-to-one matching, and all match indices are in bounds. -/
def WFRecord (rec : MatchRecord) : Prop :=
  rec.det_confs.length = rec.det_classes.length ∧
  (rec.matchList.map MatchRow.det_idx).Nodup ∧
  (rec.matchList.map MatchRow.gt_idx).Nodup ∧
  (∀ m ∈ rec.matchList, m.det_idx < rec.det_classes.length) ∧
  (∀ m ∈ rec.matchList, m.gt_idx < rec.gt_classes.length)

lemma recordOf_none_branch {iou_thres : ℚ} {img : Image}
    (h1 : img.gt_cls.length = 0) (h2 : ¬ img.dets.length > 0) :
    recordOf iou_thres img = none := by
  simp [recordOf, h1, h2]

lemma recordOf_no_gt {iou_thres : ℚ} {img : Image}
    (h1 : img.gt_cls.length = 0) (h2 : img.dets.length > 0) :
    recordOf iou_thres img =
      some ⟨[], img.dets.map Det.cls, img.dets.map Det.conf, []⟩ := by
  simp [recordOf, h1, h2]

lemma recordOf_no_det {iou_thres : ℚ} {img : Image}
    (h1 : ¬ img.gt_cls.length = 0) (h2 : img.dets.length = 0) :
    recordOf iou_thres img = some ⟨img.gt_cls, [], [], []⟩ := by
  simp [recordOf, h1, h2]

lemma recordOf_mixed {iou_thres : ℚ} {img : Image}
    (h1 : ¬ img.gt_cls.length = 0) (h2 : ¬ img.dets.length = 0) :
    recordOf iou_thres img =
      some ⟨img.gt_cls, img.dets.map Det.cls, img.dets.map Det.conf,
        if (candidateRows iou_thres img).length ≠ 0 then
          greedyReduce (candidateRows iou_thres img)
        else []⟩ := by
  simp only [recordOf]
  rw [if_neg h1, if_neg h2]

/-- Any record `accumulate_matches` stores is well-formed, given that the
image's ground-truth boxes and classes are index-aligned. -/
lemma recordOf_wf {iou_thres : ℚ} {img : Image} {rec : MatchRecord}
    (hlen : img.gts.length = img.gt_cls.length)
    (h : recordOf iou_thres img = some rec) : WFRecord rec := by
  by_cases h1 : img.gt_cls.length = 0
  · by_cases h2 : img.dets.length > 0
    · rw [recordOf_no_gt h1 h2] at h
      obtain rfl := Option.some_injective _ h
      refine ⟨by simp, by simp, by simp, by simp, by simp⟩
    · rw [recordOf_none_branch h1 h2] at h
      cases h
  · by_cases h2 : img.dets.length = 0
    · rw [recordOf_no_det h1 h2] at h
      obtain rfl := Option.some_injective _ h
      refine ⟨by simp, by simp, by simp, by simp, by simp⟩
    · rw [recordOf_mixed h1 h2] at h
      obtain rfl := Option.some_injective _ h
      by_cases hc : (candidateRows iou_thres img).length ≠ 0
      · rw [if_pos hc]
        refine ⟨by simp, greedyReduce_det_nodup _, greedyReduce_gt_nodup _, ?_, ?_⟩
        · intro m hm
          have := candidateRows_mem (greedyReduce_subset _ m hm)
          simpa using this.2.1
        · intro m hm
          have := candidateRows_mem (greedyReduce_subset _ m hm)
          simp only [MatchRecord.gt_classes]
          rw [← hlen]
          exact this.1
      · rw [if_neg hc]
        refine ⟨by simp, by simp, by simp, by simp, by simp⟩

/-- The class entries of any record `accumulate_matches` stores come from
the image's inputs. -/
lemma recordOf_bounds {iou_thres : ℚ} {img : Image} {rec : MatchRecord} {nc : ℕ}
    (h : recordOf iou_thres img = some rec)
    (hd : ∀ d ∈ img.dets, d.cls < nc) (hg : ∀ c ∈ img.gt_cls, c < nc) :
    (∀ c ∈ rec.det_classes, c < nc) ∧ (∀ c ∈ rec.gt_classes, c < nc) := by
  by_cases h1 : img.gt_cls.length = 0
  · by_cases h2 : img.dets.length > 0
    · rw [recordOf_no_gt h1 h2] at h
      obtain rfl := Option.some_injective _ h
      constructor
      · intro c hc
        obtain ⟨d, hdm, rfl⟩ := List.mem_map.mp hc
        exact hd d hdm
      · intro c hc
        cases hc
    · rw [recordOf_none_branch h1 h2] at h
      cases h
  · by_cases h2 : img.dets.length = 0
    · rw [recordOf_no_det h1 h2] at h
      obtain rfl := Option.some_injective _ h
      exact ⟨fun c hc => absurd hc (by simp), hg⟩
    · rw [recordOf_mixed h1 h2] at h
      obtain rfl := Option.some_injective _ h
      constructor
      · intro c hc
        obtain ⟨d, hdm, rfl⟩ := List.mem_map.mp hc
        exact hd d hdm
      · exact hg

/-! ### Characterizing the mixed branch of compute_matrix -/

/-- The TP cells of the mixed branch (proof-layer name for the first
component of the TP loop started on empty `used`). -/
def tpPart (t : ℚ) (rec : MatchRecord) : List (ℕ × ℕ) :=
  (tpLoop t rec.det_confs rec.det_classes rec.gt_classes rec.matchList []).1

/-- The final `used_det` set of the mixed branch. -/
def usedPart (t : ℚ) (rec : MatchRecord) : List ℕ :=
  (tpLoop t rec.det_confs rec.det_classes rec.gt_classes rec.matchList []).2

/-- `np.unique` of the matched gt indices. -/
def mguPart (rec : MatchRecord) : List ℕ :=
  npUniqueNat (rec.matchList.map MatchRow.gt_idx)

/-- The FN cells of the mixed branch in detect mode. -/
def fnPart (nc : ℕ) (t : ℚ) (rec : MatchRecord) : List (ℕ × ℕ) :=
  (((List.range rec.gt_classes.length).filter (fun g => !((mguPart rec).contains g)))
    ++ ((mguPart rec).filter (fun g =>
        !(fnUsedCheck t rec.det_confs (usedPart t rec)
          (rec.matchList.filter (fun m => m.gt_idx == g)))))).map
    (fun g => (nc, rec.gt_classes.getD g 0))

/-- The FP cells of the mixed branch in detect mode. -/
def fpPart (nc : ℕ) (t : ℚ) (rec : MatchRecord) : List (ℕ × ℕ) :=
  (rec.det_classes.enum.filter (fun p =>
    decide (t ≤ rec.det_confs.getD p.1 0) && !((usedPart t rec).contains p.1))).map
    (fun p => (p.2, nc))

lemma mixedCells_detect_eq (nc : ℕ) (t : ℚ) (rec : MatchRecord) :
    mixedCells nc Task.detect t rec = tpPart t rec ++ fnPart nc t rec ++ fpPart nc t rec := by
  simp only [mixedCells, tpPart, fnPart, fpPart, usedPart, mguPart, if_pos rfl, if_true,
    ite_true]

lemma mixedCells_classify_eq (nc : ℕ) (t : ℚ) (rec : MatchRecord) :
    mixedCells nc Task.classify t rec = tpPart t rec := by
  simp [mixedCells, tpPart]

lemma tpPart_eq (t : ℚ) (rec : MatchRecord)
    (hdnd : (rec.matchList.map MatchRow.det_idx).Nodup) :
    tpPart t rec =
      (rec.matchList.filter (fun m => decide (t ≤ rec.det_confs.getD m.det_idx 0))).map
        (fun m => (rec.det_classes.getD m.det_idx 0, rec.gt_classes.getD m.gt_idx 0)) :=
  tpLoop_cells _ _ _ _ _ _ hdnd (by simp)

lemma usedPart_mem (t : ℚ) (rec : MatchRecord) (d : ℕ) :
    d ∈ usedPart t rec ↔
      ∃ m ∈ rec.matchList, m.det_idx = d ∧ t ≤ rec.det_confs.getD d 0 := by
  rw [usedPart, tpLoop_used_mem]
  simp

lemma usedPart_contains (t : ℚ) (rec : MatchRecord) (m : MatchRow)
    (hm : m ∈ rec.matchList) :
    (usedPart t rec).contains m.det_idx =
      decide (t ≤ rec.det_confs.getD m.det_idx 0) := by
  rw [contains_eq_decide_mem]
  apply decide_eq_decide.mpr
  rw [usedPart_mem]
  constructor
  · rintro ⟨m', _, hd', hc'⟩
    exact hc'
  · intro h
    exact ⟨m, hm, rfl, h⟩

/-- Filtering `range n` on `q` and membership in a duplicate-free index
list counts the filtered list itself. -/
lemma length_filter_range_mem_and (n : ℕ) (S : List ℕ) (q : ℕ → Bool)
    (hnd : S.Nodup) (hlt : ∀ a ∈ S, a < n) :
    ((List.range n).filter (fun d => q d && decide (d ∈ S))).length
      = (S.filter q).length := by
  have hcongr : (List.range n).filter (fun d => q d && decide (d ∈ S))
      = (List.range n).filter (fun d => (S.filter q).contains d) := by
    apply List.filter_congr
    intro d _
    rw [contains_eq_decide_mem]
    by_cases hq : q d = true
    · by_cases hm : d ∈ S
      · simp [hq, hm, List.mem_filter]
      · simp [hq, hm, List.mem_filter]
    · have hq' : q d = false := by
        revert hq
        cases q d <;> simp
      simp [hq', List.mem_filter]
  rw [hcongr]
  exact length_filter_range_contains n (S.filter q) (hnd.filter q)
    (fun a ha => hlt a (List.mem_filter.mp ha).1)

/-- Reading confidences through `getD` over `range` filters like the
confidence list itself. -/
lemma length_filter_range_getD (l : List ℚ) (t : ℚ) :
    ((List.range l.length).filter (fun d => decide (t ≤ l.getD d 0))).length
      = (l.filter (fun c => decide (t ≤ c))).length := by
  conv_rhs => rw [← range_map_getD l 0]
  rw [List.filter_map, List.length_map]
  congr 1

/-- FN and TP cells of the mixed branch together count every ground truth
exactly once. -/
lemma fnPart_tpPart_length (nc : ℕ) (t : ℚ) (rec : MatchRecord)
    (hwf : WFRecord rec) :
    (fnPart nc t rec).length + (tpPart t rec).length = rec.gt_classes.length := by
  obtain ⟨hlen, hdnd, hgnd, hdin, hgin⟩ := hwf
  have htp : (tpPart t rec).length
      = (rec.matchList.filter
          (fun m => decide (t ≤ rec.det_confs.getD m.det_idx 0))).length := by
    rw [tpPart_eq t rec hdnd, List.length_map]
  have hmgu_nodup : (mguPart rec).Nodup := npUniqueNat_nodup _
  have hmgu_lt : ∀ g ∈ mguPart rec, g < rec.gt_classes.length := by
    intro g hg
    obtain ⟨m, hm, rfl⟩ := List.mem_map.mp ((npUniqueNat_mem _ g).mp hg)
    exact hgin m hm
  have hmgu_len : (mguPart rec).length = rec.matchList.length := by
    rw [mguPart, (npUniqueNat_perm_of_nodup _ hgnd).length_eq, List.length_map]
  have hpart := length_filter_partition (List.range rec.gt_classes.length)
      (fun g => (mguPart rec).contains g)
  have hcont : ((List.range rec.gt_classes.length).filter
      (fun g => (mguPart rec).contains g)).length = (mguPart rec).length :=
    length_filter_range_contains _ _ hmgu_nodup hmgu_lt
  have hextra : ((mguPart rec).filter (fun g =>
      !(fnUsedCheck t rec.det_confs (usedPart t rec)
        (rec.matchList.filter (fun m => m.gt_idx == g))))).length
      = (rec.matchList.filter
          (fun m => decide (rec.det_confs.getD m.det_idx 0 < t))).length := by
    simp only [mguPart]
    rw [((npUniqueNat_perm_of_nodup _ hgnd).filter _).length_eq]
    rw [List.filter_map, List.length_map]
    congr 1
    apply List.filter_congr
    intro m hm
    have hsub : rec.matchList.filter (fun x => x.gt_idx == m.gt_idx) = [m] :=
      filter_gt_eq_singleton hgnd hm
    show (!(fnUsedCheck t rec.det_confs (usedPart t rec)
        (rec.matchList.filter (fun x => x.gt_idx == m.gt_idx)))) = _
    rw [hsub]
    have hany : fnUsedCheck t rec.det_confs (usedPart t rec) [m]
        = decide (t ≤ rec.det_confs.getD m.det_idx 0) := by
      rw [fnUsedCheck, List.any_cons, List.any_nil, Bool.or_false,
        usedPart_contains t rec m hm, not_beq_false, Bool.and_self]
    rw [hany, not_decide_le]
  have hfn : (fnPart nc t rec).length
      = ((List.range rec.gt_classes.length).filter
          (fun g => !((mguPart rec).contains g))).length
        + ((mguPart rec).filter (fun g =>
            !(fnUsedCheck t rec.det_confs (usedPart t rec)
              (rec.matchList.filter (fun m => m.gt_idx == g))))).length := by
    rw [fnPart, List.length_map, List.length_append]
  rw [List.length_range] at hpart
  have hms := length_filter_partition rec.matchList
      (fun m => decide (t ≤ rec.det_confs.getD m.det_idx 0))
  have hnotle : rec.matchList.filter
        (fun m => !(decide (t ≤ rec.det_confs.getD m.det_idx 0)))
      = rec.matchList.filter
        (fun m => decide (rec.det_confs.getD m.det_idx 0 < t)) := by
    apply List.filter_congr
    intro m _
    exact not_decide_le t (rec.det_confs.getD m.det_idx 0)
  rw [hnotle] at hms
  omega

/-- The FP cells of the mixed branch are the above-threshold detections
outside the matched set. -/
lemma fpPart_length (nc : ℕ) (t : ℚ) (rec : MatchRecord) :
    (fpPart nc t rec).length
      = ((List.range rec.det_classes.length).filter
          (fun d => decide (t ≤ rec.det_confs.getD d 0) &&
            !(decide (d ∈ rec.matchList.map MatchRow.det_idx)))).length := by
  rw [fpPart, List.length_map]
  rw [length_filter_enum_fst rec.det_classes
    (fun d => decide (t ≤ rec.det_confs.getD d 0) && !((usedPart t rec).contains d))]
  congr 1
  apply List.filter_congr
  intro d _
  have hused : (usedPart t rec).contains d
      = decide (d ∈ rec.matchList.map MatchRow.det_idx
          ∧ t ≤ rec.det_confs.getD d 0) := by
    rw [contains_eq_decide_mem]
    apply decide_eq_decide.mpr
    rw [usedPart_mem]
    constructor
    · rintro ⟨m, hm, rfl, hc⟩
      exact ⟨List.mem_map_of_mem _ hm, hc⟩
    · rintro ⟨hmem, hc⟩
      obtain ⟨m, hm, rfl⟩ := List.mem_map.mp hmem
      exact ⟨m, hm, rfl, hc⟩
  rw [hused]
  by_cases hle : t ≤ rec.det_confs.getD d 0
  · by_cases hmem : d ∈ rec.matchList.map MatchRow.det_idx
    · simp [hle, hmem]
    · simp [hle, hmem]
  · have hd : decide (t ≤ rec.det_confs.getD d 0) = false := by
      simpa using hle
    rw [hd]
    simp

/-- FP and TP cells of the mixed branch together count every detection at
or above the confidence threshold exactly once. -/
lemma fpPart_tpPart_length (nc : ℕ) (t : ℚ) (rec : MatchRecord)
    (hwf : WFRecord rec) :
    (fpPart nc t rec).length + (tpPart t rec).length
      = (rec.det_confs.filter (fun c => decide (t ≤ c))).length := by
  obtain ⟨hlen, hdnd, hgnd, hdin, hgin⟩ := hwf
  have htp : (tpPart t rec).length
      = ((rec.matchList.map MatchRow.det_idx).filter
          (fun d => decide (t ≤ rec.det_confs.getD d 0))).length := by
    rw [tpPart_eq t rec hdnd, List.length_map, List.filter_map, List.length_map]
    congr 1
  have htp2 : ((rec.matchList.map MatchRow.det_idx).filter
        (fun d => decide (t ≤ rec.det_confs.getD d 0))).length
      = ((List.range rec.det_classes.length).filter
          (fun d => decide (t ≤ rec.det_confs.getD d 0) &&
            decide (d ∈ rec.matchList.map MatchRow.det_idx))).length := by
    rw [length_filter_range_mem_and rec.det_classes.length
      (rec.matchList.map MatchRow.det_idx)
      (fun d => decide (t ≤ rec.det_confs.getD d 0)) hdnd]
    intro a ha
    obtain ⟨m, hm, rfl⟩ := List.mem_map.mp ha
    exact hdin m hm
  have hsplit := length_filter_partition
      ((List.range rec.det_classes.length).filter
        (fun d => decide (t ≤ rec.det_confs.getD d 0)))
      (fun d => decide (d ∈ rec.matchList.map MatchRow.det_idx))
  rw [List.filter_filter, List.filter_filter] at hsplit
  have hcomm1 : (List.range rec.det_classes.length).filter
        (fun a => decide (a ∈ rec.matchList.map MatchRow.det_idx) &&
          decide (t ≤ rec.det_confs.getD a 0))
      = (List.range rec.det_classes.length).filter
        (fun a => decide (t ≤ rec.det_confs.getD a 0) &&
          decide (a ∈ rec.matchList.map MatchRow.det_idx)) := by
    apply List.filter_congr
    intro a _
    exact Bool.and_comm _ _
  have hcomm2 : (List.range rec.det_classes.length).filter
        (fun a => !(decide (a ∈ rec.matchList.map MatchRow.det_idx)) &&
          decide (t ≤ rec.det_confs.getD a 0))
      = (List.range rec.det_classes.length).filter
        (fun a => decide (t ≤ rec.det_confs.getD a 0) &&
          !(decide (a ∈ rec.matchList.map MatchRow.det_idx))) := by
    apply List.filter_congr
    intro a _
    exact Bool.and_comm _ _
  rw [hcomm1, hcomm2] at hsplit
  have hrange : ((List.range rec.det_classes.length).filter
        (fun d => decide (t ≤ rec.det_confs.getD d 0))).length
      = (rec.det_confs.filter (fun c => decide (t ≤ c))).length := by
    rw [show rec.det_classes.length = rec.det_confs.length from hlen.symm]
    exact length_filter_range_getD rec.det_confs t
  rw [fpPart_length]
  omega

/-! ### Cell regions under class bounds -/

lemma tpPart_region (nc : ℕ) (t : ℚ) (rec : MatchRecord)
    (hdnd : (rec.matchList.map MatchRow.det_idx).Nodup)
    (hdin : ∀ m ∈ rec.matchList, m.det_idx < rec.det_classes.length)
    (hgin : ∀ m ∈ rec.matchList, m.gt_idx < rec.gt_classes.length)
    (hdb : ∀ c ∈ rec.det_classes, c < nc) (hgb : ∀ c ∈ rec.gt_classes, c < nc) :
    ∀ p ∈ tpPart t rec, p.1 < nc ∧ p.2 < nc := by
  intro p hp
  rw [tpPart_eq t rec hdnd] at hp
  obtain ⟨m, hmf, rfl⟩ := List.mem_map.mp hp
  have hm := (List.mem_filter.mp hmf).1
  constructor
  · exact hdb _ (getD_mem_of_lt _ _ _ (hdin m hm))
  · exact hgb _ (getD_mem_of_lt _ _ _ (hgin m hm))

lemma fnPart_region (nc : ℕ) (t : ℚ) (rec : MatchRecord)
    (hgin : ∀ m ∈ rec.matchList, m.gt_idx < rec.gt_classes.length)
    (hgb : ∀ c ∈ rec.gt_classes, c < nc) :
    ∀ p ∈ fnPart nc t rec, p.1 = nc ∧ p.2 < nc := by
  intro p hp
  rw [fnPart] at hp
  obtain ⟨g, hg, rfl⟩ := List.mem_map.mp hp
  refine ⟨rfl, ?_⟩
  have hglt : g < rec.gt_classes.length := by
    rcases List.mem_append.mp hg with hg0 | hg1
    · exact List.mem_range.mp (List.mem_filter.mp hg0).1
    · have hmgu := (List.mem_filter.mp hg1).1
      obtain ⟨m, hm, rfl⟩ := List.mem_map.mp ((npUniqueNat_mem _ g).mp hmgu)
      exact hgin m hm
  exact hgb _ (getD_mem_of_lt _ _ _ hglt)

lemma fpPart_region (nc : ℕ) (t : ℚ) (rec : MatchRecord)
    (hdb : ∀ c ∈ rec.det_classes, c < nc) :
    ∀ p ∈ fpPart nc t rec, p.1 < nc ∧ p.2 = nc := by
  intro p hp
  rw [fpPart] at hp
  obtain ⟨q, hq, rfl⟩ := List.mem_map.mp hp
  refine ⟨?_, rfl⟩
  exact hdb _ (snd_mem_of_mem_enum (List.mem_filter.mp hq).1)

/-! ### recordCells branch equations -/

lemma recordCells_no_gt_detect (nc : ℕ) (t : ℚ) (rec : MatchRecord)
    (h1 : rec.gt_classes.length = 0) (h2 : rec.det_classes.length > 0) :
    recordCells nc Task.detect t rec =
      ((rec.det_classes.zip rec.det_confs).filter (fun p => decide (t ≤ p.2))).map
        (fun p => (p.1, nc)) := by
  simp [recordCells, h1, h2]

lemma recordCells_no_gt_classify (nc : ℕ) (t : ℚ) (rec : MatchRecord)
    (h1 : rec.gt_classes.length = 0) (h2 : rec.det_classes.length > 0) :
    recordCells nc Task.classify t rec =
      ((rec.det_classes.zip rec.det_confs).filter (fun p => decide (t ≤ p.2))).map
        (fun p => (p.1, 0)) := by
  simp [recordCells, h1, h2]

lemma recordCells_empty (nc : ℕ) (task : Task) (t : ℚ) (rec : MatchRecord)
    (h1 : rec.gt_classes.length = 0) (h2 : ¬ rec.det_classes.length > 0) :
    recordCells nc task t rec = [] := by
  simp [recordCells, h1, h2]

lemma recordCells_no_det_detect (nc : ℕ) (t : ℚ) (rec : MatchRecord)
    (h1 : ¬ rec.gt_classes.length = 0) (h2 : rec.det_classes.length = 0) :
    recordCells nc Task.detect t rec = rec.gt_classes.map (fun gc => (nc, gc)) := by
  simp [recordCells, h1, h2]

lemma recordCells_no_det_classify (nc : ℕ) (t : ℚ) (rec : MatchRecord)
    (h1 : ¬ rec.gt_classes.length = 0) (h2 : rec.det_classes.length = 0) :
    recordCells nc Task.classify t rec = rec.gt_classes.map (fun gc => (gc, gc)) := by
  simp [recordCells, h1, h2]

lemma recordCells_mixed (nc : ℕ) (task : Task) (t : ℚ) (rec : MatchRecord)
    (h1 : ¬ rec.gt_classes.length = 0) (h2 : ¬ rec.det_classes.length = 0) :
    recordCells nc task t rec = mixedCells nc task t rec := by
  simp [recordCells, h1, h2]

/-! ### Region-based filter evaluations -/

lemma filter_fnB_of_row_lt {nc : ℕ} {L : List (ℕ × ℕ)} (h : ∀ p ∈ L, p.1 < nc) :
    L.filter (fun p => decide (p.1 = nc ∧ p.2 < nc)) = [] := by
  rw [List.filter_eq_nil_iff]
  intro p hp
  simp only [decide_eq_true_eq, not_and]
  intro h1
  exact absurd h1 (Nat.ne_of_lt (h p hp))

lemma filter_fpB_of_col_lt {nc : ℕ} {L : List (ℕ × ℕ)} (h : ∀ p ∈ L, p.2 < nc) :
    L.filter (fun p => decide (p.1 < nc ∧ p.2 = nc)) = [] := by
  rw [List.filter_eq_nil_iff]
  intro p hp
  simp only [decide_eq_true_eq, not_and]
  intro _
  exact Nat.ne_of_lt (h p hp)

lemma filter_fpB_of_row_eq {nc : ℕ} {L : List (ℕ × ℕ)} (h : ∀ p ∈ L, p.1 = nc) :
    L.filter (fun p => decide (p.1 < nc ∧ p.2 = nc)) = [] := by
  rw [List.filter_eq_nil_iff]
  intro p hp
  simp only [decide_eq_true_eq, not_and]
  intro h1
  exact absurd (h p hp) (Nat.ne_of_lt h1)

lemma filter_innerB_of_row_eq {nc : ℕ} {L : List (ℕ × ℕ)} (h : ∀ p ∈ L, p.1 = nc) :
    L.filter (fun p => decide (p.1 < nc ∧ p.2 < nc)) = [] := by
  rw [List.filter_eq_nil_iff]
  intro p hp
  simp only [decide_eq_true_eq, not_and]
  intro h1
  exact absurd (h p hp) (Nat.ne_of_lt h1)

lemma filter_innerB_of_col_eq {nc : ℕ} {L : List (ℕ × ℕ)} (h : ∀ p ∈ L, p.2 = nc) :
    L.filter (fun p => decide (p.1 < nc ∧ p.2 < nc)) = [] := by
  rw [List.filter_eq_nil_iff]
  intro p hp
  simp only [decide_eq_true_eq, not_and]
  intro _
  exact fun h2 => absurd (h p hp) (Nat.ne_of_lt h2)

lemma filter_fnB_all {nc : ℕ} {L : List (ℕ × ℕ)} (h : ∀ p ∈ L, p.1 = nc ∧ p.2 < nc) :
    L.filter (fun p => decide (p.1 = nc ∧ p.2 < nc)) = L := by
  rw [List.filter_eq_self]
  intro p hp
  exact decide_eq_true (h p hp)

lemma filter_innerB_all {nc : ℕ} {L : List (ℕ × ℕ)} (h : ∀ p ∈ L, p.1 < nc ∧ p.2 < nc) :
    L.filter (fun p => decide (p.1 < nc ∧ p.2 < nc)) = L := by
  rw [List.filter_eq_self]
  intro p hp
  exact decide_eq_true (h p hp)

lemma filter_fpB_all {nc : ℕ} {L : List (ℕ × ℕ)} (h : ∀ p ∈ L, p.1 < nc ∧ p.2 = nc) :
    L.filter (fun p => decide (p.1 < nc ∧ p.2 = nc)) = L := by
  rw [List.filter_eq_self]
  intro p hp
  exact decide_eq_true (h p hp)

/-! ### Per-record conservation and monotonicity in detect mode -/

/-- Conservation of ground truths for a single record: the FN cells
(background row) plus the TP cells (inner block) count every ground truth
exactly once. -/
lemma recordCells_detect_fn_inner (nc : ℕ) (t : ℚ) (rec : MatchRecord)
    (hwf : WFRecord rec)
    (hdb : ∀ c ∈ rec.det_classes, c < nc) (hgb : ∀ c ∈ rec.gt_classes, c < nc) :
    ((recordCells nc Task.detect t rec).filter
        (fun p => decide (p.1 = nc ∧ p.2 < nc))).length
      + ((recordCells nc Task.detect t rec).filter
        (fun p => decide (p.1 < nc ∧ p.2 < nc))).length
      = rec.gt_classes.length := by
  by_cases h1 : rec.gt_classes.length = 0
  · by_cases h2 : rec.det_classes.length > 0
    · rw [recordCells_no_gt_detect nc t rec h1 h2]
      have hcol : ∀ p ∈ ((rec.det_classes.zip rec.det_confs).filter
          (fun p => decide (t ≤ p.2))).map (fun p => ((p.1 : ℕ), nc)), p.2 = nc := by
        intro p hp
        obtain ⟨q, _, rfl⟩ := List.mem_map.mp hp
        rfl
      have hrow : ∀ p ∈ ((rec.det_classes.zip rec.det_confs).filter
          (fun p => decide (t ≤ p.2))).map (fun p => ((p.1 : ℕ), nc)), p.1 < nc := by
        intro p hp
        obtain ⟨q, hq, rfl⟩ := List.mem_map.mp hp
        have hzip := (List.mem_filter.mp hq).1
        have := (List.of_mem_zip (show (q.1, q.2) ∈ _ by simpa using hzip)).1
        exact hdb _ this
      rw [filter_fnB_of_row_lt hrow, filter_innerB_of_col_eq hcol]
      simpa using h1.symm
    · rw [recordCells_empty nc Task.detect t rec h1 h2]
      simpa using h1.symm
  · by_cases h2 : rec.det_classes.length = 0
    · rw [recordCells_no_det_detect nc t rec h1 h2]
      have hrow : ∀ p ∈ rec.gt_classes.map (fun gc => ((nc : ℕ), gc)), p.1 = nc := by
        intro p hp
        obtain ⟨gc, _, rfl⟩ := List.mem_map.mp hp
        rfl
      have hall : ∀ p ∈ rec.gt_classes.map (fun gc => ((nc : ℕ), gc)),
          p.1 = nc ∧ p.2 < nc := by
        intro p hp
        obtain ⟨gc, hgc, rfl⟩ := List.mem_map.mp hp
        exact ⟨rfl, hgb gc hgc⟩
      rw [filter_fnB_all hall, filter_innerB_of_row_eq hrow]
      simp
    · rw [recordCells_mixed nc Task.detect t rec h1 h2, mixedCells_detect_eq]
      obtain ⟨hlen, hdnd, hgnd, hdin, hgin⟩ := hwf
      have htp_reg := tpPart_region nc t rec hdnd hdin hgin hdb hgb
      have hfn_reg := fnPart_region nc t rec hgin hgb
      have hfp_reg := fpPart_region nc t rec hdb
      rw [List.filter_append, List.filter_append, List.filter_append, List.filter_append]
      rw [filter_fnB_of_row_lt (fun p hp => (htp_reg p hp).1)]
      rw [filter_fnB_all hfn_reg]
      rw [filter_fnB_of_row_lt (fun p hp => (hfp_reg p hp).1)]
      rw [filter_innerB_all htp_reg]
      rw [filter_innerB_of_row_eq (fun p hp => (hfn_reg p hp).1)]
      rw [filter_innerB_of_col_eq (fun p hp => (hfp_reg p hp).2)]
      have := fnPart_tpPart_length nc t rec ⟨hlen, hdnd, hgnd, hdin, hgin⟩
      simp only [List.length_append, List.length_nil]
      omega

/-- Conservation of detections for a single record: the FP cells
(background column) plus the TP cells count every detection at or above
the threshold exactly once. -/
lemma recordCells_detect_fp_inner (nc : ℕ) (t : ℚ) (rec : MatchRecord)
    (hwf : WFRecord rec)
    (hdb : ∀ c ∈ rec.det_classes, c < nc) (hgb : ∀ c ∈ rec.gt_classes, c < nc) :
    ((recordCells nc Task.detect t rec).filter
        (fun p => decide (p.1 < nc ∧ p.2 = nc))).length
      + ((recordCells nc Task.detect t rec).filter
        (fun p => decide (p.1 < nc ∧ p.2 < nc))).length
      = (rec.det_confs.filter (fun c => decide (t ≤ c))).length := by
  by_cases h1 : rec.gt_classes.length = 0
  · by_cases h2 : rec.det_classes.length > 0
    · rw [recordCells_no_gt_detect nc t rec h1 h2]
      have hcol : ∀ p ∈ ((rec.det_classes.zip rec.det_confs).filter
          (fun p => decide (t ≤ p.2))).map (fun p => ((p.1 : ℕ), nc)), p.2 = nc := by
        intro p hp
        obtain ⟨q, _, rfl⟩ := List.mem_map.mp hp
        rfl
      have hall : ∀ p ∈ ((rec.det_classes.zip rec.det_confs).filter
          (fun p => decide (t ≤ p.2))).map (fun p => ((p.1 : ℕ), nc)),
          p.1 < nc ∧ p.2 = nc := by
        intro p hp
        obtain ⟨q, hq, rfl⟩ := List.mem_map.mp hp
        have hzip := (List.mem_filter.mp hq).1
        have := (List.of_mem_zip (show (q.1, q.2) ∈ _ by simpa using hzip)).1
        exact ⟨hdb _ this, rfl⟩
      rw [filter_fpB_all hall, filter_innerB_of_col_eq hcol]
      rw [List.length_map, List.length_nil]
      have hz : ((rec.det_classes.zip rec.det_confs).filter
            (fun p => decide (t ≤ p.2))).length
          = (rec.det_confs.filter (fun c => decide (t ≤ c))).length :=
        length_filter_zip_snd rec.det_classes rec.det_confs
          (fun c => decide (t ≤ c)) hwf.1.symm
      omega
    · rw [recordCells_empty nc Task.detect t rec h1 h2]
      have hconfs : rec.det_confs = [] := by
        have : rec.det_confs.length = 0 := by
          rw [hwf.1]
          omega
        exact List.length_eq_zero.mp this
      rw [hconfs]
      simp
  · by_cases h2 : rec.det_classes.length = 0
    · rw [recordCells_no_det_detect nc t rec h1 h2]
      have hrow : ∀ p ∈ rec.gt_classes.map (fun gc => ((nc : ℕ), gc)), p.1 = nc := by
        intro p hp
        obtain ⟨gc, _, rfl⟩ := List.mem_map.mp hp
        rfl
      have hconfs : rec.det_confs = [] := by
        have : rec.det_confs.length = 0 := by
          rw [hwf.1, h2]
        exact List.length_eq_zero.mp this
      rw [filter_fpB_of_row_eq hrow, filter_innerB_of_row_eq hrow, hconfs]
      simp
    · rw [recordCells_mixed nc Task.detect t rec h1 h2, mixedCells_detect_eq]
      obtain ⟨hlen, hdnd, hgnd, hdin, hgin⟩ := hwf
      have htp_reg := tpPart_region nc t rec hdnd hdin hgin hdb hgb
      have hfn_reg := fnPart_region nc t rec hgin hgb
      have hfp_reg := fpPart_region nc t rec hdb
      rw [List.filter_append, List.filter_append, List.filter_append, List.filter_append]
      rw [filter_fpB_of_col_lt (fun p hp => (htp_reg p hp).2)]
      rw [filter_fpB_of_row_eq (fun p hp => (hfn_reg p hp).1)]
      rw [filter_fpB_all hfp_reg]
      rw [filter_innerB_all htp_reg]
      rw [filter_innerB_of_row_eq (fun p hp => (hfn_reg p hp).1)]
      rw [filter_innerB_of_col_eq (fun p hp => (hfp_reg p hp).2)]
      have := fpPart_tpPart_length nc t rec ⟨hlen, hdnd, hgnd, hdin, hgin⟩
      simp only [List.length_append, List.length_nil]
      omega

/-- Raising the threshold can only shrink a record's FP cells. -/
lemma recordCells_detect_fp_mono (nc : ℕ) (t1 t2 : ℚ) (rec : MatchRecord)
    (hwf : WFRecord rec)
    (hdb : ∀ c ∈ rec.det_classes, c < nc) (hgb : ∀ c ∈ rec.gt_classes, c < nc)
    (h12 : t1 ≤ t2) :
    ((recordCells nc Task.detect t2 rec).filter
        (fun p => decide (p.1 < nc ∧ p.2 = nc))).length
      ≤ ((recordCells nc Task.detect t1 rec).filter
        (fun p => decide (p.1 < nc ∧ p.2 = nc))).length := by
  have hmono : ∀ (x : ℚ), decide (t2 ≤ x) = true → decide (t1 ≤ x) = true := by
    intro x hx
    exact decide_eq_true (le_trans h12 (of_decide_eq_true hx))
  by_cases h1 : rec.gt_classes.length = 0
  · by_cases h2 : rec.det_classes.length > 0
    · rw [recordCells_no_gt_detect nc t2 rec h1 h2, recordCells_no_gt_detect nc t1 rec h1 h2]
      have hall : ∀ (t : ℚ) (p : ℕ × ℕ), p ∈ ((rec.det_classes.zip rec.det_confs).filter
          (fun p => decide (t ≤ p.2))).map (fun p => ((p.1 : ℕ), nc)) →
          p.1 < nc ∧ p.2 = nc := by
        intro t p hp
        obtain ⟨q, hq, rfl⟩ := List.mem_map.mp hp
        have hzip := (List.mem_filter.mp hq).1
        have := (List.of_mem_zip (show (q.1, q.2) ∈ _ by simpa using hzip)).1
        exact ⟨hdb _ this, rfl⟩
      rw [filter_fpB_all (hall t2), filter_fpB_all (hall t1)]
      rw [List.length_map, List.length_map]
      have hsub := List.monotone_filter_right (rec.det_classes.zip rec.det_confs)
        (p := fun p => decide (t2 ≤ p.2)) (q := fun p => decide (t1 ≤ p.2))
        (fun p hp => hmono p.2 hp)
      exact hsub.length_le
    · rw [recordCells_empty nc Task.detect t2 rec h1 h2,
        recordCells_empty nc Task.detect t1 rec h1 h2]
  · by_cases h2 : rec.det_classes.length = 0
    · rw [recordCells_no_det_detect nc t2 rec h1 h2,
        recordCells_no_det_detect nc t1 rec h1 h2]
    · rw [recordCells_mixed nc Task.detect t2 rec h1 h2,
        recordCells_mixed nc Task.detect t1 rec h1 h2,
        mixedCells_detect_eq, mixedCells_detect_eq]
      obtain ⟨hlen, hdnd, hgnd, hdin, hgin⟩ := hwf
      have hwf' : WFRecord rec := ⟨hlen, hdnd, hgnd, hdin, hgin⟩
      rw [List.filter_append, List.filter_append, List.filter_append, List.filter_append]
      rw [filter_fpB_of_col_lt (fun p hp =>
        (tpPart_region nc t2 rec hdnd hdin hgin hdb hgb p hp).2)]
      rw [filter_fpB_of_col_lt (fun p hp =>
        (tpPart_region nc t1 rec hdnd hdin hgin hdb hgb p hp).2)]
      rw [filter_fpB_of_row_eq (fun p hp => (fnPart_region nc t2 rec hgin hgb p hp).1)]
      rw [filter_fpB_of_row_eq (fun p hp => (fnPart_region nc t1 rec hgin hgb p hp).1)]
      rw [filter_fpB_all (fpPart_region nc t2 rec hdb)]
      rw [filter_fpB_all (fpPart_region nc t1 rec hdb)]
      simp only [List.length_append, List.length_nil]
      have hchar2 := fpPart_length nc t2 rec
      have hchar1 := fpPart_length nc t1 rec
      have hsub := List.monotone_filter_right (List.range rec.det_classes.length)
        (p := fun d => decide (t2 ≤ rec.det_confs.getD d 0) &&
          !(decide (d ∈ rec.matchList.map MatchRow.det_idx)))
        (q := fun d => decide (t1 ≤ rec.det_confs.getD d 0) &&
          !(decide (d ∈ rec.matchList.map MatchRow.det_idx)))
        (fun d hd => by
          have h3 := Bool.and_eq_true_iff.mp hd
          exact Bool.and_eq_true_iff.mpr ⟨hmono _ h3.1, h3.2⟩)
      have := hsub.length_le
      omega

/-! ### Aggregating over the record collection -/

lemma allCells_cons (nc : ℕ) (task : Task) (t : ℚ) (rec : MatchRecord)
    (records : List MatchRecord) :
    allCells nc task t (rec :: records)
      = recordCells nc task t rec ++ allCells nc task t records := by
  simp [allCells]

lemma allCells_fn_inner (nc : ℕ) (t : ℚ) (records : List MatchRecord)
    (h : ∀ rec ∈ records, WFRecord rec ∧ (∀ c ∈ rec.det_classes, c < nc)
      ∧ (∀ c ∈ rec.gt_classes, c < nc)) :
    ((allCells nc Task.detect t records).filter
        (fun p => decide (p.1 = nc ∧ p.2 < nc))).length
      + ((allCells nc Task.detect t records).filter
        (fun p => decide (p.1 < nc ∧ p.2 < nc))).length
      = (records.map (fun rec => rec.gt_classes.length)).sum := by
  induction records with
  | nil => simp [allCells]
  | cons rec records ih =>
    obtain ⟨hwf, hdb, hgb⟩ := h rec (List.mem_cons_self _ _)
    have ih' := ih (fun r hr => h r (List.mem_cons_of_mem _ hr))
    have hrec := recordCells_detect_fn_inner nc t rec hwf hdb hgb
    rw [allCells_cons, List.filter_append, List.filter_append, List.length_append,
      List.length_append, List.map_cons, List.sum_cons]
    omega

lemma allCells_fp_inner (nc : ℕ) (t : ℚ) (records : List MatchRecord)
    (h : ∀ rec ∈ records, WFRecord rec ∧ (∀ c ∈ rec.det_classes, c < nc)
      ∧ (∀ c ∈ rec.gt_classes, c < nc)) :
    ((allCells nc Task.detect t records).filter
        (fun p => decide (p.1 < nc ∧ p.2 = nc))).length
      + ((allCells nc Task.detect t records).filter
        (fun p => decide (p.1 < nc ∧ p.2 < nc))).length
      = (records.map
          (fun rec => (rec.det_confs.filter (fun c => decide (t ≤ c))).length)).sum := by
  induction records with
  | nil => simp [allCells]
  | cons rec records ih =>
    obtain ⟨hwf, hdb, hgb⟩ := h rec (List.mem_cons_self _ _)
    have ih' := ih (fun r hr => h r (List.mem_cons_of_mem _ hr))
    have hrec := recordCells_detect_fp_inner nc t rec hwf hdb hgb
    rw [allCells_cons, List.filter_append, List.filter_append, List.length_append,
      List.length_append, List.map_cons, List.sum_cons]
    omega

lemma allCells_fp_mono (nc : ℕ) (t1 t2 : ℚ) (records : List MatchRecord)
    (h : ∀ rec ∈ records, WFRecord rec ∧ (∀ c ∈ rec.det_classes, c < nc)
      ∧ (∀ c ∈ rec.gt_classes, c < nc)) (h12 : t1 ≤ t2) :
    ((allCells nc Task.detect t2 records).filter
        (fun p => decide (p.1 < nc ∧ p.2 = nc))).length
      ≤ ((allCells nc Task.detect t1 records).filter
        (fun p => decide (p.1 < nc ∧ p.2 = nc))).length := by
  induction records with
  | nil => simp [allCells]
  | cons rec records ih =>
    obtain ⟨hwf, hdb, hgb⟩ := h rec (List.mem_cons_self _ _)
    have ih' := ih (fun r hr => h r (List.mem_cons_of_mem _ hr))
    have hrec := recordCells_detect_fp_mono nc t1 t2 rec hwf hdb hgb h12
    rw [allCells_cons, allCells_cons, List.filter_append, List.filter_append,
      List.length_append, List.length_append]
    omega

/-! ### accumulateAll: the stored record collection -/

lemma accumulateAll_spec (cm : CustomConfusionMatrix) (imgs : List Image) :
    (cm.accumulateAll imgs).task = cm.task ∧
    (cm.accumulateAll imgs).nc = cm.nc ∧
    (cm.accumulateAll imgs).iou_thres = cm.iou_thres ∧
    (cm.accumulateAll imgs).matches_per_image
      = cm.matches_per_image ++ imgs.filterMap (recordOf cm.iou_thres) := by
  induction imgs generalizing cm with
  | nil => simp [CustomConfusionMatrix.accumulateAll]
  | cons img imgs ih =>
    have hstep : cm.accumulateAll (img :: imgs)
        = (cm.accumulate_matches img).accumulateAll imgs := rfl
    rw [hstep]
    obtain ⟨h1, h2, h3, h4⟩ := ih (cm.accumulate_matches img)
    refine ⟨h1, h2, h3, ?_⟩
    rw [h4]
    show cm.matches_per_image ++ (recordOf cm.iou_thres img).toList
        ++ imgs.filterMap (recordOf cm.iou_thres)
      = cm.matches_per_image ++ (img :: imgs).filterMap (recordOf cm.iou_thres)
    rw [List.append_assoc]
    congr 1
    rw [List.filterMap_cons]
    cases recordOf cm.iou_thres img <;> simp

/-! ### Per-image totals -/

lemma filterMap_gt_total (th : ℚ) (imgs : List Image) :
    ((imgs.filterMap (recordOf th)).map (fun rec => rec.gt_classes.length)).sum
      = (imgs.map (fun img => img.gt_cls.length)).sum := by
  induction imgs with
  | nil => simp
  | cons img imgs ih =>
    rw [List.filterMap_cons, List.map_cons, List.sum_cons, ← ih]
    by_cases h1 : img.gt_cls.length = 0
    · by_cases h2 : img.dets.length > 0
      · rw [recordOf_no_gt h1 h2]
        simp [h1]
      · rw [recordOf_none_branch h1 h2]
        simp [h1]
    · by_cases h2 : img.dets.length = 0
      · rw [recordOf_no_det h1 h2]
        simp
      · rw [recordOf_mixed h1 h2]
        simp

lemma filterMap_det_total (th t : ℚ) (imgs : List Image) :
    ((imgs.filterMap (recordOf th)).map
        (fun rec => (rec.det_confs.filter (fun c => decide (t ≤ c))).length)).sum
      = (imgs.map
          (fun img => (img.dets.filter (fun d => decide (t ≤ d.conf))).length)).sum := by
  induction imgs with
  | nil => simp
  | cons img imgs ih =>
    rw [List.filterMap_cons, List.map_cons, List.sum_cons, ← ih]
    have hmapconf : ((img.dets.map Det.conf).filter (fun c => decide (t ≤ c))).length
        = (img.dets.filter (fun d => decide (t ≤ d.conf))).length := by
      rw [List.filter_map, List.length_map]
      congr 1
    by_cases h1 : img.gt_cls.length = 0
    · by_cases h2 : img.dets.length > 0
      · rw [recordOf_no_gt h1 h2]
        simp only [List.map_cons, List.sum_cons]
        rw [hmapconf]
      · rw [recordOf_none_branch h1 h2]
        have hdets : img.dets = [] := by
          have : img.dets.length = 0 := by omega
          exact List.length_eq_zero.mp this
        simp [hdets]
    · by_cases h2 : img.dets.length = 0
      · rw [recordOf_no_det h1 h2]
        have hdets : img.dets = [] := List.length_eq_zero.mp h2
        simp [hdets]
      · rw [recordOf_mixed h1 h2]
        simp only [List.map_cons, List.sum_cons]
        rw [hmapconf]

lemma filterMap_wf (th : ℚ) (nc : ℕ) (imgs : List Image)
    (hlen : ∀ img ∈ imgs, img.gts.length = img.gt_cls.length)
    (hdb : ∀ img ∈ imgs, ∀ d ∈ img.dets, d.cls < nc)
    (hgb : ∀ img ∈ imgs, ∀ c ∈ img.gt_cls, c < nc) :
    ∀ rec ∈ imgs.filterMap (recordOf th), WFRecord rec
      ∧ (∀ c ∈ rec.det_classes, c < nc) ∧ (∀ c ∈ rec.gt_classes, c < nc) := by
  intro rec hrec
  obtain ⟨img, himg, heq⟩ := List.mem_filterMap.mp hrec
  have hb := recordOf_bounds heq (hdb img himg) (hgb img himg)
  exact ⟨recordOf_wf (hlen img himg) heq, hb.1, hb.2⟩

/-! ### Matrix sums as filtered cell counts -/

lemma sum_inner_eq (L : List (ℕ × ℕ)) (nc : ℕ) :
    (∑ r ∈ Finset.range nc, ∑ c ∈ Finset.range nc, L.count (r, c))
      = (L.filter (fun p => decide (p.1 < nc ∧ p.2 < nc))).length := by
  have h1 : (∑ r ∈ Finset.range nc, ∑ c ∈ Finset.range nc, L.count (r, c))
      = ∑ a ∈ Finset.range nc ×ˢ Finset.range nc, L.count a := by
    rw [← Finset.sum_product']
  rw [h1, sum_count_eq_length_filter]
  congr 1
  apply List.filter_congr
  intro p _
  apply decide_eq_decide.mpr
  rw [Finset.mem_product, Finset.mem_range, Finset.mem_range]

lemma sum_fn_row_eq (L : List (ℕ × ℕ)) (nc : ℕ) :
    (∑ c ∈ Finset.range nc, L.count (nc, c))
      = (L.filter (fun p => decide (p.1 = nc ∧ p.2 < nc))).length := by
  have h1 : (∑ a ∈ ({nc} : Finset ℕ) ×ˢ Finset.range nc, L.count a)
      = ∑ c ∈ Finset.range nc, L.count (nc, c) := by
    rw [Finset.sum_product, Finset.sum_singleton]
  rw [← h1]
  rw [sum_count_eq_length_filter]
  congr 1
  apply List.filter_congr
  intro p _
  apply decide_eq_decide.mpr
  rw [Finset.mem_product, Finset.mem_singleton, Finset.mem_range]

lemma sum_fp_col_eq (L : List (ℕ × ℕ)) (nc : ℕ) :
    (∑ r ∈ Finset.range nc, L.count (r, nc))
      = (L.filter (fun p => decide (p.1 < nc ∧ p.2 = nc))).length := by
  have h1 : (∑ a ∈ Finset.range nc ×ˢ ({nc} : Finset ℕ), L.count a)
      = ∑ r ∈ Finset.range nc, L.count (r, nc) := by
    rw [Finset.sum_product]
    apply Finset.sum_congr rfl
    intro r _
    rw [Finset.sum_singleton]
  rw [← h1, sum_count_eq_length_filter]
  congr 1
  apply List.filter_congr
  intro p _
  apply decide_eq_decide.mpr
  rw [Finset.mem_product, Finset.mem_singleton, Finset.mem_range]

/-! ### Support of the computed cells (for the in-bounds claim) -/

/-- Every cell the TP loop emits reads its components from the class
lists via `getD`. -/
lemma tpLoop_cells_mem (t : ℚ) (confs : List ℚ) (dcls gcls : List ℕ)
    (ms : List MatchRow) (used : List ℕ) :
    ∀ p ∈ (tpLoop t confs dcls gcls ms used).1,
      ∃ m ∈ ms, p = (dcls.getD m.det_idx 0, gcls.getD m.gt_idx 0) := by
  induction ms generalizing used with
  | nil => simp [tpLoop]
  | cons m ms ih =>
    intro p hp
    by_cases hcond : t ≤ confs.getD m.det_idx 0 ∧ used.contains m.det_idx = false
    · rw [show (tpLoop t confs dcls gcls (m :: ms) used).1 =
          (dcls.getD m.det_idx 0, gcls.getD m.gt_idx 0) ::
            (tpLoop t confs dcls gcls ms (m.det_idx :: used)).1 by
        simp only [tpLoop, if_pos hcond]] at hp
      rcases List.mem_cons.mp hp with rfl | hp'
      · exact ⟨m, List.mem_cons_self _ _, rfl⟩
      · obtain ⟨m', hm', heq⟩ := ih (m.det_idx :: used) p hp'
        exact ⟨m', List.mem_cons_of_mem _ hm', heq⟩
    · rw [show (tpLoop t confs dcls gcls (m :: ms) used).1 =
          (tpLoop t confs dcls gcls ms used).1 by
        simp only [tpLoop, if_neg hcond]] at hp
      obtain ⟨m', hm', heq⟩ := ih used p hp
      exact ⟨m', List.mem_cons_of_mem _ hm', heq⟩

/-- Under class bounds, every increment of the detect-mode matrix lands
inside the `(nc+1) × (nc+1)` grid, for arbitrary stored records. -/
lemma recordCells_support (nc : ℕ) (t : ℚ) (rec : MatchRecord)
    (hdb : ∀ c ∈ rec.det_classes, c < nc) (hgb : ∀ c ∈ rec.gt_classes, c < nc) :
    ∀ p ∈ recordCells nc Task.detect t rec, p.1 ≤ nc ∧ p.2 ≤ nc := by
  have hgetd : ∀ i, rec.det_classes.getD i 0 ≤ nc := by
    intro i
    rcases getD_mem_or_default rec.det_classes i 0 with hmem | hdef
    · exact le_of_lt (hdb _ hmem)
    · rw [hdef]
      exact Nat.zero_le _
  have hgetg : ∀ i, rec.gt_classes.getD i 0 ≤ nc := by
    intro i
    rcases getD_mem_or_default rec.gt_classes i 0 with hmem | hdef
    · exact le_of_lt (hgb _ hmem)
    · rw [hdef]
      exact Nat.zero_le _
  by_cases h1 : rec.gt_classes.length = 0
  · by_cases h2 : rec.det_classes.length > 0
    · rw [recordCells_no_gt_detect nc t rec h1 h2]
      intro p hp
      obtain ⟨q, hq, rfl⟩ := List.mem_map.mp hp
      have := (List.of_mem_zip (show (q.1, q.2) ∈ _ by
        simpa using (List.mem_filter.mp hq).1)).1
      exact ⟨le_of_lt (hdb _ this), le_refl _⟩
    · rw [recordCells_empty nc Task.detect t rec h1 h2]
      intro p hp
      cases hp
  · by_cases h2 : rec.det_classes.length = 0
    · rw [recordCells_no_det_detect nc t rec h1 h2]
      intro p hp
      obtain ⟨gc, hgc, rfl⟩ := List.mem_map.mp hp
      exact ⟨le_refl _, le_of_lt (hgb _ hgc)⟩
    · rw [recordCells_mixed nc Task.detect t rec h1 h2, mixedCells_detect_eq]
      intro p hp
      rcases List.mem_append.mp hp with hp' | hfp
      · rcases List.mem_append.mp hp' with htp | hfn
        · obtain ⟨m, _, rfl⟩ := tpLoop_cells_mem t rec.det_confs rec.det_classes
            rec.gt_classes rec.matchList [] p htp
          exact ⟨hgetd _, hgetg _⟩
        · rw [fnPart] at hfn
          obtain ⟨g, _, rfl⟩ := List.mem_map.mp hfn
          exact ⟨le_refl _, hgetg _⟩
      · rw [fpPart] at hfp
        obtain ⟨q, hq, rfl⟩ := List.mem_map.mp hfp
        exact ⟨le_of_lt (hdb _ (snd_mem_of_mem_enum (List.mem_filter.mp hq).1)),
          le_refl _⟩

/-! ## Claim theorems -/

/-- C3: for every image accumulated with at least one ground truth and one
detection, the stored matches array is obtained by the greedy reduction
(sort by IoU descending, first occurrence per detection index, re-sort,
first occurrence per gt index) of the candidates with IoU strictly above
`iou_thres`, and is a partial one-to-one matching: no detection index and
no ground-truth index occurs in more than one row, and every row is a
candidate (hence has IoU strictly above the threshold). -/
theorem C3_greedy_one_to_one (iou_thres : ℚ) (img : Image) (rec : MatchRecord)
    (h1 : img.gt_cls ≠ []) (h2 : img.dets ≠ [])
    (hrec : recordOf iou_thres img = some rec) :
    rec.matchList = greedyReduce (candidateRows iou_thres img)
    ∧ (rec.matchList.map MatchRow.det_idx).Nodup
    ∧ (rec.matchList.map MatchRow.gt_idx).Nodup
    ∧ ∀ m ∈ rec.matchList, m ∈ candidateRows iou_thres img ∧ iou_thres < m.iou := by
  have h1' : ¬ img.gt_cls.length = 0 := by
    simpa [List.length_eq_zero] using h1
  have h2' : ¬ img.dets.length = 0 := by
    simpa [List.length_eq_zero] using h2
  rw [recordOf_mixed h1' h2'] at hrec
  obtain rfl := Option.some_injective _ hrec
  have hml : (if (candidateRows iou_thres img).length ≠ 0 then
        greedyReduce (candidateRows iou_thres img) else [])
      = greedyReduce (candidateRows iou_thres img) := by
    by_cases hc : (candidateRows iou_thres img).length ≠ 0
    · rw [if_pos hc]
    · rw [if_neg hc]
      have : candidateRows iou_thres img = [] := by
        have : (candidateRows iou_thres img).length = 0 := by omega
        exact List.length_eq_zero.mp this
      rw [this]
      rfl
  refine ⟨hml, ?_, ?_, ?_⟩
  · rw [show (MatchRecord.mk img.gt_cls (img.dets.map Det.cls) (img.dets.map Det.conf)
        (if (candidateRows iou_thres img).length ≠ 0 then
          greedyReduce (candidateRows iou_thres img) else [])).matchList
      = greedyReduce (candidateRows iou_thres img) from hml]
    exact greedyReduce_det_nodup _
  · rw [show (MatchRecord.mk img.gt_cls (img.dets.map Det.cls) (img.dets.map Det.conf)
        (if (candidateRows iou_thres img).length ≠ 0 then
          greedyReduce (candidateRows iou_thres img) else [])).matchList
      = greedyReduce (candidateRows iou_thres img) from hml]
    exact greedyReduce_gt_nodup _
  · intro m hm
    rw [show (MatchRecord.mk img.gt_cls (img.dets.map Det.cls) (img.dets.map Det.conf)
        (if (candidateRows iou_thres img).length ≠ 0 then
          greedyReduce (candidateRows iou_thres img) else [])).matchList
      = greedyReduce (candidateRows iou_thres img) from hml] at hm
    have hcand := greedyReduce_subset _ m hm
    exact ⟨hcand, (candidateRows_mem hcand).2.2⟩

/-- C6: permuting the order in which images are accumulated leaves every
fixed-threshold matrix entry unchanged. -/
theorem C6_order_independence (nc : ℕ) (iou_thres t : ℚ) (task : Task)
    (imgs imgs2 : List Image) (hperm : imgs ~ imgs2) (r c : ℕ) :
    ((CustomConfusionMatrix.init nc iou_thres task).accumulateAll imgs).compute_matrix
        t r c
      = ((CustomConfusionMatrix.init nc iou_thres task).accumulateAll imgs2).compute_matrix
        t r c := by
  obtain ⟨ht1, hn1, hi1, hr1⟩ :=
    accumulateAll_spec (CustomConfusionMatrix.init nc iou_thres task) imgs
  obtain ⟨ht2, hn2, hi2, hr2⟩ :=
    accumulateAll_spec (CustomConfusionMatrix.init nc iou_thres task) imgs2
  simp only [CustomConfusionMatrix.compute_matrix, ht1, hn1, hi1, hr1, ht2, hn2, hi2, hr2]
  simp only [CustomConfusionMatrix.init, List.nil_append]
  rw [List.count_eq_countP, List.count_eq_countP]
  exact (List.Perm.flatMap_right _ (hperm.filterMap _)).countP_eq _

/-- C6 witness: two concrete images accumulated in both orders give the
same matrix entry. -/
theorem C6_order_independence_witness :
    ((CustomConfusionMatrix.init 1 (45/100) Task.detect).accumulateAll
        [⟨[], false, [⟨0,0,10,10⟩], false, [0]⟩,
         ⟨[⟨⟨0,0,10,10⟩, 9/10, 0⟩], false, [], false, []⟩]).compute_matrix (1/2) 1 0
      = ((CustomConfusionMatrix.init 1 (45/100) Task.detect).accumulateAll
        [⟨[⟨⟨0,0,10,10⟩, 9/10, 0⟩], false, [], false, []⟩,
         ⟨[], false, [⟨0,0,10,10⟩], false, [0]⟩]).compute_matrix (1/2) 1 0 :=
  C6_order_independence 1 (45/100) (1/2) Task.detect _ _
    (List.Perm.swap _ _ []) 1 0

/-- C10: if every stored detection class and ground-truth class lies in
`[0, nc)` and the task is detect, every increment lands inside the
`(nc+1) × (nc+1)` grid: outside it the (total) matrix function is zero. -/
theorem C10_in_bounds (cm : CustomConfusionMatrix) (t : ℚ)
    (htask : cm.task = Task.detect)
    (hdb : ∀ rec ∈ cm.matches_per_image, ∀ c ∈ rec.det_classes, c < cm.nc)
    (hgb : ∀ rec ∈ cm.matches_per_image, ∀ c ∈ rec.gt_classes, c < cm.nc)
    (r c : ℕ) (hout : cm.nc + 1 ≤ r ∨ cm.nc + 1 ≤ c) :
    cm.compute_matrix t r c = 0 := by
  rw [CustomConfusionMatrix.compute_matrix, htask]
  rw [List.count_eq_zero]
  intro hmem
  rw [allCells] at hmem
  obtain ⟨rec, hrec, hcell⟩ := List.mem_flatMap.mp hmem
  have := recordCells_support cm.nc t rec (hdb rec hrec) (hgb rec hrec) _ hcell
  omega

/-- C10 witness: a record with classes below `nc = 1` yields zero at the
out-of-grid cell `(2, 0)`. -/
theorem C10_in_bounds_witness :
    CustomConfusionMatrix.compute_matrix
      ⟨Task.detect, 1, 45/100, [⟨[0], [0], [9/10], [⟨0, 0, 9/10⟩]⟩]⟩ (1/2) 2 0 = 0 :=
  C10_in_bounds ⟨Task.detect, 1, 45/100, [⟨[0], [0], [9/10], [⟨0, 0, 9/10⟩]⟩]⟩ (1/2)
    rfl (by decide) (by decide) 2 0 (Or.inl (by decide))

/-- C2: conservation in detect mode.  At any fixed threshold `t`, the
background-row (FN) sum plus the inner-block (TP and confusion) sum equals
the total number of accumulated ground truths, and the background-column
(FP) sum plus the inner-block sum equals the total number of accumulated
detections with confidence at or above `t`.  The images respect the data
model: class indices in `[0, nc)` and index-aligned ground-truth data. -/
theorem C2_conservation (nc : ℕ) (iou_thres t : ℚ) (imgs : List Image)
    (hlen : ∀ img ∈ imgs, img.gts.length = img.gt_cls.length)
    (hdb : ∀ img ∈ imgs, ∀ d ∈ img.dets, d.cls < nc)
    (hgb : ∀ img ∈ imgs, ∀ c ∈ img.gt_cls, c < nc) :
    ((∑ c ∈ Finset.range nc,
        ((CustomConfusionMatrix.init nc iou_thres Task.detect).accumulateAll
          imgs).compute_matrix t nc c)
      + ∑ r ∈ Finset.range nc, ∑ c ∈ Finset.range nc,
          ((CustomConfusionMatrix.init nc iou_thres Task.detect).accumulateAll
            imgs).compute_matrix t r c
      = (imgs.map (fun img => img.gt_cls.length)).sum)
    ∧ ((∑ r ∈ Finset.range nc,
        ((CustomConfusionMatrix.init nc iou_thres Task.detect).accumulateAll
          imgs).compute_matrix t r nc)
      + ∑ r ∈ Finset.range nc, ∑ c ∈ Finset.range nc,
          ((CustomConfusionMatrix.init nc iou_thres Task.detect).accumulateAll
            imgs).compute_matrix t r c
      = (imgs.map
          (fun img => (img.dets.filter (fun d => decide (t ≤ d.conf))).length)).sum) := by
  obtain ⟨ht1, hn1, hi1, hr1⟩ :=
    accumulateAll_spec (CustomConfusionMatrix.init nc iou_thres Task.detect) imgs
  simp only [CustomConfusionMatrix.compute_matrix, ht1, hn1, hi1, hr1]
  simp only [CustomConfusionMatrix.init, List.nil_append]
  rw [sum_fn_row_eq, sum_fp_col_eq, sum_inner_eq]
  have hwf := filterMap_wf iou_thres nc imgs hlen hdb hgb
  constructor
  · rw [allCells_fn_inner nc t _ hwf, filterMap_gt_total]
  · rw [allCells_fp_inner nc t _ hwf, filterMap_det_total]

/-- C2 witness: one image, one ground truth of class 0, one detection of
class 0 with confidence 9/10, at `nc = 1` and threshold 1/2. -/
theorem C2_conservation_witness :
    ((∑ c ∈ Finset.range 1,
        ((CustomConfusionMatrix.init 1 (45/100) Task.detect).accumulateAll
          [⟨[⟨⟨0,0,10,10⟩, 9/10, 0⟩], false, [⟨0,0,10,10⟩], false, [0]⟩]).compute_matrix
          (1/2) 1 c)
      + ∑ r ∈ Finset.range 1, ∑ c ∈ Finset.range 1,
          ((CustomConfusionMatrix.init 1 (45/100) Task.detect).accumulateAll
            [⟨[⟨⟨0,0,10,10⟩, 9/10, 0⟩], false, [⟨0,0,10,10⟩], false, [0]⟩]).compute_matrix
            (1/2) r c
      = ([⟨[⟨⟨0,0,10,10⟩, 9/10, 0⟩], false, [⟨0,0,10,10⟩], false, [0]⟩].map
          (fun img => (Image.gt_cls img).length)).sum)
    ∧ ((∑ r ∈ Finset.range 1,
        ((CustomConfusionMatrix.init 1 (45/100) Task.detect).accumulateAll
          [⟨[⟨⟨0,0,10,10⟩, 9/10, 0⟩], false, [⟨0,0,10,10⟩], false, [0]⟩]).compute_matrix
          (1/2) r 1)
      + ∑ r ∈ Finset.range 1, ∑ c ∈ Finset.range 1,
          ((CustomConfusionMatrix.init 1 (45/100) Task.detect).accumulateAll
            [⟨[⟨⟨0,0,10,10⟩, 9/10, 0⟩], false, [⟨0,0,10,10⟩], false, [0]⟩]).compute_matrix
            (1/2) r c
      = ([⟨[⟨⟨0,0,10,10⟩, 9/10, 0⟩], false, [⟨0,0,10,10⟩], false, [0]⟩].map
          (fun img => ((Image.dets img).filter
            (fun d => decide ((1:ℚ)/2 ≤ d.conf))).length)).sum) :=
  C2_conservation 1 (45/100) (1/2)
    [⟨[⟨⟨0,0,10,10⟩, 9/10, 0⟩], false, [⟨0,0,10,10⟩], false, [0]⟩]
    (by decide) (by decide) (by decide)

/-- C5: raising the confidence threshold can only lower the total
false-positive count (the background-column sum) in detect mode, for any
accumulated record collection respecting the data model. -/
theorem C5_fp_monotone (nc : ℕ) (iou_thres t1 t2 : ℚ) (imgs : List Image)
    (hlen : ∀ img ∈ imgs, img.gts.length = img.gt_cls.length)
    (hdb : ∀ img ∈ imgs, ∀ d ∈ img.dets, d.cls < nc)
    (hgb : ∀ img ∈ imgs, ∀ c ∈ img.gt_cls, c < nc)
    (h12 : t1 < t2) :
    (∑ r ∈ Finset.range nc,
        ((CustomConfusionMatrix.init nc iou_thres Task.detect).accumulateAll
          imgs).compute_matrix t2 r nc)
      ≤ ∑ r ∈ Finset.range nc,
          ((CustomConfusionMatrix.init nc iou_thres Task.detect).accumulateAll
            imgs).compute_matrix t1 r nc := by
  obtain ⟨ht1, hn1, hi1, hr1⟩ :=
    accumulateAll_spec (CustomConfusionMatrix.init nc iou_thres Task.detect) imgs
  simp only [CustomConfusionMatrix.compute_matrix, ht1, hn1, hi1, hr1]
  simp only [CustomConfusionMatrix.init, List.nil_append]
  rw [sum_fp_col_eq, sum_fp_col_eq]
  exact allCells_fp_mono nc t1 t2 _ (filterMap_wf iou_thres nc imgs hlen hdb hgb)
    (le_of_lt h12)

/-- C5 witness: the same one-image collection, thresholds 1/2 < 1. -/
theorem C5_fp_monotone_witness :
    (∑ r ∈ Finset.range 1,
        ((CustomConfusionMatrix.init 1 (45/100) Task.detect).accumulateAll
          [⟨[⟨⟨0,0,10,10⟩, 9/10, 0⟩], false, [], false, []⟩]).compute_matrix 1 r 1)
      ≤ ∑ r ∈ Finset.range 1,
          ((CustomConfusionMatrix.init 1 (45/100) Task.detect).accumulateAll
            [⟨[⟨⟨0,0,10,10⟩, 9/10, 0⟩], false, [], false, []⟩]).compute_matrix (1/2) r 1 :=
  C5_fp_monotone 1 (45/100) (1/2) 1
    [⟨[⟨⟨0,0,10,10⟩, 9/10, 0⟩], false, [], false, []⟩]
    (by decide) (by decide) (by decide) (by norm_num)

/-! ## Concrete scenarios -/

/-- Scenario B candidates: the single gt/detection pair overlaps with IoU
`10^9 / (10^9 + 1)`, above the 0.45 threshold. -/
lemma scenarioB_cand : candidateRows (9/20)
    (⟨[⟨⟨0,0,10,10⟩, 3/10, 0⟩], false, [⟨0,0,10,10⟩], false, [0]⟩ : Image)
    = [⟨0, 0, 1000000000/1000000001⟩] := by
  norm_num [candidateRows, List.enum, List.enumFrom, List.filterMap,
    iouOf, is_obb, batch_probiou, box_iou, eps]

/-- Scenario B stored record. -/
lemma scenarioB_rec : recordOf (9/20)
    (⟨[⟨⟨0,0,10,10⟩, 3/10, 0⟩], false, [⟨0,0,10,10⟩], false, [0]⟩ : Image)
    = some ⟨[0], [0], [3/10], [⟨0, 0, 1000000000/1000000001⟩]⟩ := by
  norm_num [recordOf, scenarioB_cand, greedyReduce, npUniqueBy, sortByIouDesc,
    sortLe, insertLe, keepFirstBy, keepFirstByAux]

/-- Scenario B increments at threshold 1/2: one FN at `(1, 0)`, nothing
else — the below-threshold matched detection is suppressed. -/
lemma scenarioB_cells :
    recordCells 1 Task.detect (1/2)
        ⟨[0], [0], [3/10], [⟨0, 0, 1000000000/1000000001⟩]⟩
      = [(1, 0)] := by
  norm_num [recordCells, mixedCells, tpLoop, fnUsedCheck, npUniqueNat,
    keepFirstBy, keepFirstByAux, sortLe, insertLe, List.enum, List.enumFrom]

/-- C1: Scenario B.  One image, ground truth class 0 with box
`[0,0,10,10]`, detection class 0 with the same box and confidence 0.3,
`iou_threshold = 0.45`, `nc = 1` (background index 1).  At threshold 0.5
the matrix has `matrix[background, 0] = 1` (the ground truth is a false
negative) and `matrix[0, background] = 0` (the below-threshold detection
is suppressed, not a false positive). -/
theorem C1_scenarioB :
    ((CustomConfusionMatrix.init 1 (45/100) Task.detect).accumulateAll
        [⟨[⟨⟨0,0,10,10⟩, 3/10, 0⟩], false, [⟨0,0,10,10⟩], false, [0]⟩]).compute_matrix
      (1/2) 1 0 = 1
    ∧ ((CustomConfusionMatrix.init 1 (45/100) Task.detect).accumulateAll
        [⟨[⟨⟨0,0,10,10⟩, 3/10, 0⟩], false, [⟨0,0,10,10⟩], false, [0]⟩]).compute_matrix
      (1/2) 0 1 = 0 := by
  constructor <;>
    norm_num [CustomConfusionMatrix.compute_matrix, CustomConfusionMatrix.accumulateAll,
      CustomConfusionMatrix.accumulate_matches, CustomConfusionMatrix.init, List.foldl,
      scenarioB_rec, allCells, List.flatMap, scenarioB_cells]

/-- C3 witness: the Scenario B image has one ground truth and one
detection, and its stored record (computed in `scenarioB_rec`) is the
greedy one-to-one reduction of its candidates. -/
theorem C3_greedy_one_to_one_witness :
    (⟨[0], [0], [3/10], [⟨0, 0, 1000000000/1000000001⟩]⟩ : MatchRecord).matchList
      = greedyReduce (candidateRows (9/20)
        (⟨[⟨⟨0,0,10,10⟩, 3/10, 0⟩], false, [⟨0,0,10,10⟩], false, [0]⟩ : Image))
    ∧ ((⟨[0], [0], [3/10], [⟨0, 0, 1000000000/1000000001⟩]⟩ :
        MatchRecord).matchList.map MatchRow.det_idx).Nodup
    ∧ ((⟨[0], [0], [3/10], [⟨0, 0, 1000000000/1000000001⟩]⟩ :
        MatchRecord).matchList.map MatchRow.gt_idx).Nodup
    ∧ ∀ m ∈ (⟨[0], [0], [3/10], [⟨0, 0, 1000000000/1000000001⟩]⟩ :
        MatchRecord).matchList,
        m ∈ candidateRows (9/20)
          (⟨[⟨⟨0,0,10,10⟩, 3/10, 0⟩], false, [⟨0,0,10,10⟩], false, [0]⟩ : Image)
        ∧ (9:ℚ)/20 < m.iou :=
  C3_greedy_one_to_one (9/20)
    (⟨[⟨⟨0,0,10,10⟩, 3/10, 0⟩], false, [⟨0,0,10,10⟩], false, [0]⟩ : Image)
    (⟨[0], [0], [3/10], [⟨0, 0, 1000000000/1000000001⟩]⟩ : MatchRecord)
    (by decide) (by decide) scenarioB_rec

/-- Scenario E detection box: `[0, 0, 10, 9 + 9/10^9]` has IoU exactly
9/10 against the ground-truth box `[0, 0, 10, 10]` (the `eps` in the
denominator is what makes the odd fourth coordinate necessary). -/
lemma scenarioE_cand : candidateRows (9/20)
    (⟨[⟨⟨0,0,10,9000000009/1000000000⟩, 9/10, 0⟩,
       ⟨⟨0,0,10,9000000009/1000000000⟩, 9/10, 0⟩], false,
      [⟨0,0,10,10⟩, ⟨0,0,10,10⟩], false, [0, 0]⟩ : Image)
    = [⟨0, 0, 9/10⟩, ⟨0, 1, 9/10⟩, ⟨1, 0, 9/10⟩, ⟨1, 1, 9/10⟩] := by
  norm_num [candidateRows, List.enum, List.enumFrom, List.filterMap,
    iouOf, is_obb, batch_probiou, box_iou, eps]

/-- Scenario E greedy reduction: with all four IoUs exactly equal, the
pipeline collapses to the single match `(gt 1, det 1)`. -/
lemma scenarioE_greedy :
    greedyReduce [⟨0, 0, 9/10⟩, ⟨0, 1, 9/10⟩, ⟨1, 0, 9/10⟩, ⟨1, 1, 9/10⟩]
      = [⟨1, 1, 9/10⟩] := by
  norm_num [greedyReduce, npUniqueBy, sortByIouDesc, sortLe, insertLe,
    keepFirstBy, keepFirstByAux]

/-- Scenario E stored record. -/
lemma scenarioE_rec : recordOf (9/20)
    (⟨[⟨⟨0,0,10,9000000009/1000000000⟩, 9/10, 0⟩,
       ⟨⟨0,0,10,9000000009/1000000000⟩, 9/10, 0⟩], false,
      [⟨0,0,10,10⟩, ⟨0,0,10,10⟩], false, [0, 0]⟩ : Image)
    = some ⟨[0, 0], [0, 0], [9/10, 9/10], [⟨1, 1, 9/10⟩]⟩ := by
  norm_num [recordOf, scenarioE_cand, scenarioE_greedy]

/-- Scenario E increments at threshold 1/2: one TP at `(0,0)`, one FN at
`(1,0)`, one FP at `(0,1)`. -/
lemma scenarioE_cells :
    recordCells 1 Task.detect (1/2) ⟨[0, 0], [0, 0], [9/10, 9/10], [⟨1, 1, 9/10⟩]⟩
      = [(0, 0), (1, 0), (0, 1)] := by
  norm_num [recordCells, mixedCells, tpLoop, fnUsedCheck, npUniqueNat,
    keepFirstBy, keepFirstByAux, sortLe, insertLe, List.enum, List.enumFrom,
    List.range, List.range.loop]

/-- C4 counterexample: two ground truths and two detections, every pair
with IoU exactly 9/10, matching classes, confidences 9/10 above the
query threshold 1/2 — yet the matrix counts one TP, not two: the greedy
reduction collapses the all-tied candidates to a single match. -/
theorem C4_counterexample :
    ((CustomConfusionMatrix.init 1 (45/100) Task.detect).accumulateAll
        [⟨[⟨⟨0,0,10,9000000009/1000000000⟩, 9/10, 0⟩,
           ⟨⟨0,0,10,9000000009/1000000000⟩, 9/10, 0⟩], false,
          [⟨0,0,10,10⟩, ⟨0,0,10,10⟩], false, [0, 0]⟩]).compute_matrix (1/2) 0 0 ≠ 2 := by
  norm_num [CustomConfusionMatrix.compute_matrix, CustomConfusionMatrix.accumulateAll,
    CustomConfusionMatrix.accumulate_matches, CustomConfusionMatrix.init, List.foldl,
    scenarioE_rec, allCells, List.flatMap, scenarioE_cells, List.count_cons,
    List.count_nil]

/-- C4 amended: in the all-tied Scenario E the greedy reduction yields a
single match, so the matrix counts one TP at `(0,0)`, one FN at
`(background, 0)` and one FP at `(0, background)`; no detection is
counted against two ground truths. -/
theorem C4_amended :
    ((CustomConfusionMatrix.init 1 (45/100) Task.detect).accumulateAll
        [⟨[⟨⟨0,0,10,9000000009/1000000000⟩, 9/10, 0⟩,
           ⟨⟨0,0,10,9000000009/1000000000⟩, 9/10, 0⟩], false,
          [⟨0,0,10,10⟩, ⟨0,0,10,10⟩], false, [0, 0]⟩]).compute_matrix (1/2) 0 0 = 1
    ∧ ((CustomConfusionMatrix.init 1 (45/100) Task.detect).accumulateAll
        [⟨[⟨⟨0,0,10,9000000009/1000000000⟩, 9/10, 0⟩,
           ⟨⟨0,0,10,9000000009/1000000000⟩, 9/10, 0⟩], false,
          [⟨0,0,10,10⟩, ⟨0,0,10,10⟩], false, [0, 0]⟩]).compute_matrix (1/2) 1 0 = 1
    ∧ ((CustomConfusionMatrix.init 1 (45/100) Task.detect).accumulateAll
        [⟨[⟨⟨0,0,10,9000000009/1000000000⟩, 9/10, 0⟩,
           ⟨⟨0,0,10,9000000009/1000000000⟩, 9/10, 0⟩], false,
          [⟨0,0,10,10⟩, ⟨0,0,10,10⟩], false, [0, 0]⟩]).compute_matrix (1/2) 0 1 = 1 := by
  refine ⟨?_, ?_, ?_⟩ <;>
    norm_num [CustomConfusionMatrix.compute_matrix, CustomConfusionMatrix.accumulateAll,
      CustomConfusionMatrix.accumulate_matches, CustomConfusionMatrix.init, List.foldl,
      scenarioE_rec, allCells, List.flatMap, scenarioE_cells, List.count_cons,
      List.count_nil]

/-! ## Error-handling claims -/

/-- C7 counterexample: an image mixing a 7-column (oriented) detection
tensor with a 4-column (axis-aligned) ground-truth tensor raises nothing —
`accumulate_matches` creates a record for the image (the collection grows
by one), with the box kind inferred structurally (`is_obb` is false for
the mix). -/
theorem C7_counterexample :
    ((CustomConfusionMatrix.init 1 (45/100) Task.detect).accumulate_matches
        ⟨[⟨⟨0,0,10,10⟩, 9/10, 0⟩], true, [⟨0,0,10,10⟩], false, [0]⟩).matches_per_image.length
      = 1
    ∧ is_obb ⟨[⟨⟨0,0,10,10⟩, 9/10, 0⟩], true, [⟨0,0,10,10⟩], false, [0]⟩ = false :=
  ⟨rfl, rfl⟩

/-- C7 amended: `accumulate_matches` never raises on mixed box kinds.  The
kind is inferred structurally from the column counts (source line 64);
whenever either side is not oriented, `is_obb` is false, the pair is
treated as axis-aligned, and a record for the image is created as usual. -/
theorem C7_amended (iou_thres : ℚ) (img : Image)
    (hmix : img.detObb = false ∨ img.gtObb = false)
    (h1 : img.gt_cls ≠ []) (h2 : img.dets ≠ []) :
    is_obb img = false
    ∧ ∃ rec, recordOf iou_thres img = some rec
        ∧ rec.gt_classes = img.gt_cls
        ∧ rec.det_classes = img.dets.map Det.cls
        ∧ rec.det_confs = img.dets.map Det.conf := by
  constructor
  · rw [is_obb]
    rcases hmix with h | h <;> simp [h]
  · have h1' : ¬ img.gt_cls.length = 0 := by
      simpa [List.length_eq_zero] using h1
    have h2' : ¬ img.dets.length = 0 := by
      simpa [List.length_eq_zero] using h2
    exact ⟨_, recordOf_mixed h1' h2', rfl, rfl, rfl⟩

/-- C7 amended witness: the mixed-kind image of the counterexample. -/
theorem C7_amended_witness :
    is_obb (⟨[⟨⟨0,0,10,10⟩, 9/10, 0⟩], true, [⟨0,0,10,10⟩], false, [0]⟩ : Image) = false
    ∧ ∃ rec, recordOf (45/100)
          (⟨[⟨⟨0,0,10,10⟩, 9/10, 0⟩], true, [⟨0,0,10,10⟩], false, [0]⟩ : Image)
          = some rec
        ∧ rec.gt_classes = [0]
        ∧ rec.det_classes = [⟨⟨0,0,10,10⟩, 9/10, 0⟩].map Det.cls
        ∧ rec.det_confs = [⟨⟨0,0,10,10⟩, 9/10, 0⟩].map Det.conf :=
  C7_amended (45/100) ⟨[⟨⟨0,0,10,10⟩, 9/10, 0⟩], true, [⟨0,0,10,10⟩], false, [0]⟩
    (Or.inr rfl) (by decide) (by decide)

/-- C8 counterexample: constructing with `nc = 0` (non-positive class
count) and `iou_thres = 2` (outside `[0,1]`) raises no configuration
error — the constructor returns normally with the values stored verbatim
and no accumulation performed. -/
theorem C8_counterexample :
    CustomConfusionMatrix.init 0 2 Task.detect = ⟨Task.detect, 0, 2, []⟩ :=
  rfl

/-- C8 amended: the constructor performs no validation at all — for every
class count, IoU threshold and task it returns an object storing exactly
the given values with an empty record collection, on which any query
returns the all-zero matrix. -/
theorem C8_amended (nc : ℕ) (iou_thres t : ℚ) (task : Task) (r c : ℕ) :
    (CustomConfusionMatrix.init nc iou_thres task).task = task
    ∧ (CustomConfusionMatrix.init nc iou_thres task).nc = nc
    ∧ (CustomConfusionMatrix.init nc iou_thres task).iou_thres = iou_thres
    ∧ (CustomConfusionMatrix.init nc iou_thres task).matches_per_image = []
    ∧ (CustomConfusionMatrix.init nc iou_thres task).compute_matrix t r c = 0 :=
  ⟨rfl, rfl, rfl, rfl, rfl⟩

/-- C9 counterexample: in classify mode (`nc = 2`), one image with a
single ground truth of class 0 and no detections makes `compute_matrix`
increment the diagonal cell `(0, 0)` (source line 138) — the ground truth
with no matching above-threshold detection does not add nothing. -/
theorem C9_counterexample :
    ((CustomConfusionMatrix.init 2 (45/100) Task.classify).accumulateAll
        [⟨[], false, [⟨0,0,10,10⟩], false, [0]⟩]).compute_matrix (1/2) 0 0 = 1 :=
  rfl

/-- C9 amended: in classify mode the per-record increments are: for an
image with both ground truths and detections, exactly the TP-loop cells
(the FN and FP branches are `pass`, lines 184 and 193, so background
increments are suppressed there); but an image with no detections
increments the diagonal `(gc, gc)` for every ground truth (line 138), and
an image with no ground truths increments `(dc, 0)` for every
above-threshold detection (line 129). -/
theorem C9_amended (nc : ℕ) (t : ℚ) (rec : MatchRecord) :
    (¬ rec.gt_classes.length = 0 → ¬ rec.det_classes.length = 0 →
      recordCells nc Task.classify t rec = tpPart t rec)
    ∧ (¬ rec.gt_classes.length = 0 → rec.det_classes.length = 0 →
      recordCells nc Task.classify t rec = rec.gt_classes.map (fun gc => (gc, gc)))
    ∧ (rec.gt_classes.length = 0 → rec.det_classes.length > 0 →
      recordCells nc Task.classify t rec =
        ((rec.det_classes.zip rec.det_confs).filter (fun p => decide (t ≤ p.2))).map
          (fun p => (p.1, 0))) := by
  refine ⟨?_, ?_, ?_⟩
  · intro h1 h2
    rw [recordCells_mixed nc Task.classify t rec h1 h2, mixedCells_classify_eq]
  · intro h1 h2
    exact recordCells_no_det_classify nc t rec h1 h2
  · intro h1 h2
    exact recordCells_no_gt_classify nc t rec h1 h2

/-- C9 amended witness: the three classify-mode branches at concrete
records. -/
theorem C9_amended_witness :
    (recordCells 2 Task.classify (1/2)
        ⟨[0], [1], [9/10], [⟨0, 0, 9/10⟩]⟩
      = tpPart (1/2) ⟨[0], [1], [9/10], [⟨0, 0, 9/10⟩]⟩)
    ∧ (recordCells 2 Task.classify (1/2) ⟨[0], [], [], []⟩
      = [0].map (fun gc => (gc, gc)))
    ∧ (recordCells 2 Task.classify (1/2) ⟨[], [2], [9/10], []⟩
      = (([2].zip [(9:ℚ)/10]).filter (fun p => decide ((1:ℚ)/2 ≤ p.2))).map
          (fun p => (p.1, 0))) :=
  ⟨(C9_amended 2 (1/2) ⟨[0], [1], [9/10], [⟨0, 0, 9/10⟩]⟩).1 (by decide) (by decide),
   (C9_amended 2 (1/2) ⟨[0], [], [], []⟩).2.1 (by decide) (by decide),
   (C9_amended 2 (1/2) ⟨[], [2], [9/10], []⟩).2.2 (by decide) (by decide)⟩

end WdCT
